import Mathlib

set_option maxRecDepth 8192
set_option maxHeartbeats 1000000

/-
Shallow embedding of the storage and migration subsystem of the
smart-shopping-list frontend (src/data/listStore/{types,storage,listDocs,
migration,api}.ts and the offline ops queue module).

Modelling conventions, chosen once and used throughout:
* localStorage is modelled as a record `St` with one field per storage key:
  the legacy snapshot slot (STORAGE_KEY), the pending-ops slot (OPS_KEY),
  the index slot (INDEX_KEY), the current-selection slot (CURRENT_ID_KEY,
  a raw string, not JSON), and an association list for the per-list
  document keys LIST_DOC_KEY(id).
* a JSON-valued slot is a `Slot α`: `absent` (key missing; an empty-string
  value behaves identically to a missing one in every read path of the
  source, so it is folded into `absent`), `corrupt` (present but not
  parseable as α), or `ok a`.
* ISO-8601 timestamp strings of this code are always produced by
  `new Date().toISOString()`, have fixed width and compare
  lexicographically exactly like the instants they denote, so they are
  modelled as `Nat`.  `Date.now()` millisecond stamps are also `Nat`.
  The clock is a counter in `St`; each call of nowIso()/now() returns the
  counter and advances it (each call observes the current, nondecreasing
  time).
* uuid() is modelled as a fresh-name supply counter in `St` (the
  randomness of the source generator is abstracted away).
* JavaScript string truthiness: a string is falsy exactly when it is "".
-/

namespace ListStore

/-- Whitespace test used by the model of JavaScript's String.prototype.trim. -/
def wsChar (c : Char) : Bool :=
  c = ' ' || c = '\t' || c = '\n' || c = '\r'

/-- Model of JavaScript's String.prototype.trim: drop whitespace from both ends. -/
def jsTrim (s : String) : String :=
  ⟨(s.data.dropWhile wsChar).rdropWhile wsChar⟩

/-- Lowercasing of one character (ASCII range; the storage layer's names are
compared with JavaScript's toLowerCase, modelled here on the ASCII letters). -/
def lowerChar (c : Char) : Char :=
  if 'A' ≤ c ∧ c ≤ 'Z' then Char.ofNat (c.toNat + 32) else c

/-- Model of JavaScript's String.prototype.toLowerCase. -/
def jsLower (s : String) : String :=
  ⟨s.data.map lowerChar⟩

/-- Item (src/components/ListItem.tsx): entry of a shopping list.  The optional
payload fields (quantity, unit, category, snooze flag) are opaque to the storage
layer, which only ever copies them. -/
structure Item where
  id : String
  name : String
  done : Bool
  snoozed : Option Bool := none
  amount : Option Nat := none
  unit : Option String := none
  category : Option String := none
deriving DecidableEq, Repr

/-- Partial item, the `Partial<Item>` patch taken by updateItem: every field
optional; a present field overrides the item's field (object spread). -/
structure ItemPatch where
  id : Option String := none
  name : Option String := none
  done : Option Bool := none
  snoozed : Option (Option Bool) := none
  amount : Option (Option Nat) := none
  unit : Option (Option String) := none
  category : Option (Option String) := none
deriving DecidableEq, Repr

/-- Semantics of the object spread `\x7b ...it, ...patch \x7d`. -/
def applyPatch (it : Item) (p : ItemPatch) : Item :=
  { id := p.id.getD it.id
    name := p.name.getD it.name
    done := p.done.getD it.done
    snoozed := p.snoozed.getD it.snoozed
    amount := p.amount.getD it.amount
    unit := p.unit.getD it.unit
    category := p.category.getD it.category }

/-- ListSnapshot (src/data/listStore/types.ts): the full per-list document.
`name` and `updatedAt` are optional in the source type (legacy compatibility). -/
structure ListSnapshot where
  id : String
  name : Option String := none
  createdAt : Nat
  updatedAt : Option Nat := none
  items : List Item
deriving DecidableEq, Repr

/-- ListMeta (src/data/listStore/types.ts): denormalized index entry. -/
structure ListMeta where
  id : String
  name : String
  createdAt : Nat
  updatedAt : Nat
deriving DecidableEq, Repr

/-- PendingOp (src/data/listStore/types.ts): queued offline item mutation. -/
inductive PendingOp where
  | add (item : Item) (ts : Nat) (listId : Option String)
  | update (id : String) (patch : ItemPatch) (ts : Nat) (listId : Option String)
  | toggle (id : String) (ts : Nat) (listId : Option String)
  | delete (id : String) (ts : Nat) (listId : Option String)
deriving DecidableEq, Repr

/-- Content of one JSON-valued localStorage slot. -/
inductive Slot (α : Type) where
  | absent
  | corrupt
  | ok (a : α)
deriving DecidableEq, Repr

/-- The whole localStorage state visible to the store, plus the clock and the
identifier supply. -/
structure St where
  legacy : Slot ListSnapshot := .absent
  pending : Slot (List PendingOp) := .absent
  index : Slot (List ListMeta) := .absent
  currentId : Option String := none
  docs : List (String × Slot ListSnapshot) := []
  clock : Nat := 0
  ids : Nat := 0
deriving DecidableEq, Repr

/-- The completely fresh storage state (no keys present). -/
def emptySt : St := {}

/-- JavaScript truthiness of the raw string returned by getItem (null and ""
are falsy). -/
def truthyStr : Option String → Bool
  | some s => s ≠ ""
  | none => false

/- ----------------- storage.ts primitives ----------------- -/

/-- now (storage.ts): Date.now(), modelled by the clock counter. -/
def now (σ : St) : Nat × St :=
  (σ.clock, { σ with clock := σ.clock + 1 })

/-- nowIso (storage.ts): new Date().toISOString(), modelled by the clock counter. -/
def nowIso (σ : St) : Nat × St :=
  (σ.clock, { σ with clock := σ.clock + 1 })

/-- uuid (storage.ts): fresh identifier from the supply counter. -/
def uuid (σ : St) : String × St :=
  ("id-" ++ toString σ.ids, { σ with ids := σ.ids + 1 })

/-- readIndex (storage.ts): safeParse of INDEX_KEY with fallback []. -/
def readIndex (σ : St) : List ListMeta :=
  match σ.index with
  | .ok l => l
  | _ => []

/-- writeIndex (storage.ts). -/
def writeIndex (l : List ListMeta) (σ : St) : St :=
  { σ with index := .ok l }

/-- getCurrentListId (storage.ts): raw getItem of CURRENT_ID_KEY. -/
def getCurrentListId (σ : St) : Option String :=
  σ.currentId

/-- setCurrentListId (storage.ts). -/
def setCurrentListId (id : String) (σ : St) : St :=
  { σ with currentId := some id }

/-- clearCurrentListId (storage.ts). -/
def clearCurrentListId (σ : St) : St :=
  { σ with currentId := none }

/- ----------------- per-list documents (listDocs.ts) ----------------- -/

/-- Lookup of the per-list document slot LIST_DOC_KEY(k). -/
def lookupDoc (k : String) : List (String × Slot ListSnapshot) → Option (Slot ListSnapshot)
  | [] => none
  | (k', v) :: rest => if k' = k then some v else lookupDoc k rest

/-- localStorage.setItem on a per-list document key: overwrite or add. -/
def setDoc (k : String) (v : Slot ListSnapshot) :
    List (String × Slot ListSnapshot) → List (String × Slot ListSnapshot)
  | [] => [(k, v)]
  | (k', v') :: rest => if k' = k then (k, v) :: rest else (k', v') :: setDoc k v rest

/-- localStorage.removeItem on a per-list document key. -/
def removeDoc (k : String) (ds : List (String × Slot ListSnapshot)) :
    List (String × Slot ListSnapshot) :=
  ds.filter (fun e => e.1 ≠ k)

/-- readListDoc (listDocs.ts): parse the document, null when absent or corrupt. -/
def readListDoc (id : String) (σ : St) : Option ListSnapshot :=
  match lookupDoc id σ.docs with
  | some (.ok d) => some d
  | _ => none

/-- fallbackName (api.ts): `(n && n.trim() ? n.trim() : "My list")`, also the
inline normalization `name?.trim() || "My list"` of listDocs.ts/migration.ts. -/
def fallbackName : Option String → String
  | some s => if jsTrim s = "" then "My list" else jsTrim s
  | none => "My list"

/-- Insertion of one meta into a list sorted descending by updatedAt. -/
def insertDesc (m : ListMeta) : List ListMeta → List ListMeta
  | [] => [m]
  | x :: xs => if x.updatedAt ≤ m.updatedAt then m :: x :: xs else x :: insertDesc m xs

/-- Model of `Array.prototype.sort` with the comparators used by listDocs.ts
(lexicographic on ISO updatedAt strings, descending) and api.ts getAllLists
(Date.parse difference, descending): a permutation of the input sorted
descending by updatedAt.  The source comparators leave the order of ties
implementation-defined; the model fixes insertion sort. -/
def sortByUpdatedDesc : List ListMeta → List ListMeta
  | [] => []
  | x :: xs => insertDesc x (sortByUpdatedDesc xs)

/-- Replacement of the first index entry with the meta's id (findIndex plus
in-place assignment, listDocs.ts lines 26 and 31); none when the id is not in
the index. -/
def upsertAt (meta : ListMeta) : List ListMeta → Option (List ListMeta)
  | [] => none
  | m :: rest =>
    if m.id = meta.id then some (meta :: rest)
    else (upsertAt meta rest).map (fun l => m :: l)

/-- writeListDoc (listDocs.ts lines 16-35): persist the document, mirror the
legacy slot when it is the current list, and upsert the denormalized meta into
the index (replace the first entry with this id, else unshift), kept sorted by
updatedAt descending. -/
def writeListDoc (snap : ListSnapshot) (σ : St) : St :=
  let σ := { σ with docs := setDoc snap.id (.ok snap) σ.docs }
  let σ := if getCurrentListId σ = some snap.id then { σ with legacy := .ok snap } else σ
  let index := readIndex σ
  let (updatedAt, σ) :=
    match snap.updatedAt with
    | some t => (t, σ)
    | none => nowIso σ
  let name := fallbackName snap.name
  let meta : ListMeta := ⟨snap.id, name, snap.createdAt, updatedAt⟩
  let index' :=
    match upsertAt meta index with
    | some l => l
    | none => meta :: index
  writeIndex (sortByUpdatedDesc index') σ

/- ----------------- ops queue module ----------------- -/

/-- loadOps (ops queue module): parse OPS_KEY, [] when absent or corrupt. -/
def loadOps (σ : St) : List PendingOp :=
  match σ.pending with
  | .ok l => l
  | _ => []

/-- saveOps (ops queue module). -/
def saveOps (l : List PendingOp) (σ : St) : St :=
  { σ with pending := .ok l }

/-- queue (ops queue module): load, push at the end, save. -/
def queue (op : PendingOp) (σ : St) : St :=
  saveOps (loadOps σ ++ [op]) σ

/- ----------------- migration.ts ----------------- -/

/-- Guard of migrateIfNeeded (migration.ts line 20), positively: migration is
performed iff the legacy key is present and the index key and current-selection
key are not both (truthily) present. -/
def migrationNeeded (σ : St) : Bool :=
  !((σ.index ≠ (Slot.absent : Slot (List ListMeta)) && truthyStr σ.currentId)
      || σ.legacy = (Slot.absent : Slot ListSnapshot))

/-- Body of migrateIfNeeded (migration.ts lines 22-45), run when the guard
fires.  The source line `createdAt = parsed.createdAt || nowIso()` only
defends against data outside the declared schema (createdAt is a required
field), so the model keeps parsed.createdAt. -/
def migrateBody (σ : St) : St :=
  let (id, σ) := uuid σ
  let (parsed, σ) : ListSnapshot × St :=
    match σ.legacy with
    | .ok d => (d, σ)
    | _ => let (t, σ') := nowIso σ; (⟨id, none, t, none, []⟩, σ')
  let name := fallbackName parsed.name
  let createdAt := parsed.createdAt
  let (updatedAt, σ) :=
    match parsed.updatedAt with
    | some u => (u, σ)
    | none => nowIso σ
  let normalized : ListSnapshot := ⟨id, some name, createdAt, some updatedAt, parsed.items⟩
  let σ := writeListDoc normalized σ
  let meta : ListMeta := ⟨id, name, createdAt, updatedAt⟩
  let σ := writeIndex [meta] σ
  let σ := setCurrentListId id σ
  { σ with legacy := .ok normalized }

/-- migrateIfNeeded (migration.ts lines 15-46): one-time migration of the
legacy single-list slot into the indexed multi-list layout. -/
def migrateIfNeeded (σ : St) : St :=
  if migrationNeeded σ then migrateBody σ else σ

/- ----------------- api.ts helpers ----------------- -/

/-- safeMeta (api.ts lines 32-49): build a ListMeta, preserving createdAt/name
from the existing index entry when not supplied (`??` is nullish coalescing,
so an empty-string name is kept, then normalized by fallbackName). -/
def safeMeta (id : String) (name : Option String) (updatedAt : Option Nat)
    (createdAt : Option Nat) (σ : St) : ListMeta × St :=
  let prev := (readIndex σ).find? (fun m => m.id = id)
  let (created, σ) :=
    match createdAt with
    | some c => (c, σ)
    | none =>
      match prev with
      | some p => (p.createdAt, σ)
      | none => nowIso σ
  let nm : Option String :=
    match name with
    | some s => some s
    | none => prev.map (fun p => p.name)
  let (upd, σ) :=
    match updatedAt with
    | some u => (u, σ)
    | none => nowIso σ
  (⟨id, fallbackName nm, created, upd⟩, σ)

/-- toMeta (api.ts lines 52-54). -/
def toMeta (s : ListSnapshot) (σ : St) : ListMeta × St :=
  safeMeta s.id s.name s.updatedAt (some s.createdAt) σ

/-- upsertMeta (api.ts lines 57-62): replace in place when the id exists,
otherwise append at the end (no re-sort). -/
def upsertMeta (meta : ListMeta) (σ : St) : St :=
  let idx := readIndex σ
  let exi := idx.any (fun m => m.id = meta.id)
  let next := if exi then idx.map (fun m => if m.id = meta.id then meta else m)
              else idx ++ [meta]
  writeIndex next σ

/-- removeMeta (api.ts lines 65-69): filter the id out, persist, return. -/
def removeMeta (id : String) (σ : St) : List ListMeta × St :=
  let next := (readIndex σ).filter (fun m => m.id ≠ id)
  (next, writeIndex next σ)

/-- normName (api.ts lines 71-73): trim then lowercase. -/
def normName (name : String) : String :=
  jsLower (jsTrim name)

/-- Model of `const id = getCurrentListId(); if (!id) ...`: the current id when
it is truthy. -/
def currentIdIfTruthy (σ : St) : Option String :=
  match σ.currentId with
  | some s => if s = "" then none else some s
  | none => none

/- ----------------- api.ts public surface ----------------- -/

/-- createAndSelectList (api.ts lines 77-98). -/
def createAndSelectList (name : String) (σ : St) : ListSnapshot × St :=
  let σ := migrateIfNeeded σ
  let (id, σ) := uuid σ
  let (createdAt, σ) := nowIso σ
  let snap : ListSnapshot :=
    ⟨id, some (fallbackName (some name)), createdAt, some createdAt, []⟩
  let σ := writeListDoc snap σ
  let (meta, σ) := toMeta snap σ
  let σ := upsertMeta meta σ
  let σ := setCurrentListId id σ
  let σ := { σ with legacy := .ok snap }
  (snap, σ)

/-- getAllLists (api.ts lines 100-106): fresh read of the index, sorted by
recency. -/
def getAllLists (σ : St) : List ListMeta × St :=
  let σ := migrateIfNeeded σ
  (sortByUpdatedDesc (readIndex σ), σ)

/-- selectList (api.ts lines 108-121): select, mirror into the legacy slot, and
bump index recency (the document itself is not rewritten). -/
def selectList (id : String) (σ : St) : Option ListSnapshot × St :=
  let σ := migrateIfNeeded σ
  match readListDoc id σ with
  | none => (none, σ)
  | some doc =>
    let σ := setCurrentListId id σ
    let σ := { σ with legacy := .ok doc }
    let (t, σ) := nowIso σ
    let (meta, σ) := safeMeta id doc.name (some t) none σ
    let σ := upsertMeta meta σ
    (some doc, σ)

/-- renameCurrentList (api.ts lines 123-143). -/
def renameCurrentList (newName : String) (σ : St) : Option ListSnapshot × St :=
  let σ := migrateIfNeeded σ
  match currentIdIfTruthy σ with
  | none => (none, σ)
  | some id =>
    match readListDoc id σ with
    | none => (none, σ)
    | some snap =>
      let (t, σ) := nowIso σ
      let updated : ListSnapshot :=
        { snap with name := some (fallbackName (some newName)), updatedAt := some t }
      let σ := writeListDoc updated σ
      let (meta, σ) := safeMeta id updated.name updated.updatedAt none σ
      let σ := upsertMeta meta σ
      let σ := { σ with legacy := .ok updated }
      (some updated, σ)

/-- deleteListById (api.ts lines 145-166): remove the document, update the
index, and repair the current selection and legacy mirror when needed. -/
def deleteListById (id : String) (σ : St) : St :=
  let σ := migrateIfNeeded σ
  let σ := { σ with docs := removeDoc id σ.docs }
  let (nextIndex, σ) := removeMeta id σ
  if getCurrentListId σ = some id then
    match nextIndex with
    | [] => let σ := clearCurrentListId σ; { σ with legacy := .absent }
    | m :: _ =>
      let σ := setCurrentListId m.id σ
      match readListDoc m.id σ with
      | some doc => { σ with legacy := .ok doc }
      | none => σ
  else σ

/-- createNewList (api.ts lines 170-196): legacy entry point; with a selection
present it defers to createAndSelectList, otherwise it builds the default
list itself (legacy slot written first). -/
def createNewList (σ : St) : ListSnapshot × St :=
  let σ := migrateIfNeeded σ
  if truthyStr (getCurrentListId σ) then
    createAndSelectList "My list" σ
  else
    let (id, σ) := uuid σ
    let (createdAt, σ) := nowIso σ
    let snap : ListSnapshot := ⟨id, some "My list", createdAt, some createdAt, []⟩
    let σ := { σ with legacy := .ok snap }
    let σ := writeListDoc snap σ
    let (meta, σ) := toMeta snap σ
    let σ := upsertMeta meta σ
    let σ := setCurrentListId id σ
    (snap, σ)

/-- Resolution body of loadSnapshot (api.ts lines 286-298): current-id document
first, then the legacy slot; null on absence or parse failure. -/
def resolveSnap (σ : St) : Option ListSnapshot :=
  let viaCurrent :=
    match currentIdIfTruthy σ with
    | some cid => readListDoc cid σ
    | none => none
  match viaCurrent with
  | some doc => some doc
  | none =>
    match σ.legacy with
    | .ok d => some d
    | _ => none

/-- loadSnapshot (api.ts lines 283-299). -/
def loadSnapshot (σ : St) : Option ListSnapshot × St :=
  let σ := migrateIfNeeded σ
  (resolveSnap σ, σ)

/-- Shared tail of the item mutations (api.ts lines 204-207 etc.): persist the
updated snapshot, upsert safeMeta(id, name, updatedAt), mirror legacy. -/
def persistUpdated (updated : ListSnapshot) (σ : St) : St :=
  let σ := writeListDoc updated σ
  let (meta, σ) := safeMeta updated.id updated.name updated.updatedAt none σ
  let σ := upsertMeta meta σ
  { σ with legacy := .ok updated }

/-- replaceItems (api.ts lines 198-209). -/
def replaceItems (items : List Item) (σ : St) : ListSnapshot × St :=
  let σ := migrateIfNeeded σ
  let (s?, σ) := loadSnapshot σ
  let (snap, σ) := match s? with | some s => (s, σ) | none => createNewList σ
  let (t, σ) := nowIso σ
  let updated : ListSnapshot := { snap with items := items, updatedAt := some t }
  (updated, persistUpdated updated σ)

/-- addItem (api.ts lines 211-228): append the item; enqueue an `add` op when
offline (`online` is the isOnline() reading of the call). -/
def addItem (newItem : Item) (online : Bool) (σ : St) : ListSnapshot × St :=
  let σ := migrateIfNeeded σ
  let (s?, σ) := loadSnapshot σ
  let (snap, σ) := match s? with | some s => (s, σ) | none => createNewList σ
  let (t, σ) := nowIso σ
  let updated : ListSnapshot := { snap with items := snap.items ++ [newItem], updatedAt := some t }
  let σ := persistUpdated updated σ
  let σ :=
    if online then σ
    else
      let (ts, σ) := now σ
      queue (.add newItem ts (some snap.id)) σ
  (updated, σ)

/-- updateItem (api.ts lines 230-247): map the patch over the matching id. -/
def updateItem (id : String) (patch : ItemPatch) (online : Bool) (σ : St) :
    ListSnapshot × St :=
  let σ := migrateIfNeeded σ
  let (s?, σ) := loadSnapshot σ
  let (snap, σ) := match s? with | some s => (s, σ) | none => createNewList σ
  let items := snap.items.map (fun it => if it.id = id then applyPatch it patch else it)
  let (t, σ) := nowIso σ
  let updated : ListSnapshot := { snap with items := items, updatedAt := some t }
  let σ := persistUpdated updated σ
  let σ :=
    if online then σ
    else
      let (ts, σ) := now σ
      queue (.update id patch ts (some snap.id)) σ
  (updated, σ)

/-- toggleItem (api.ts lines 249-263): flip done on the matching id. -/
def toggleItem (id : String) (online : Bool) (σ : St) : ListSnapshot × St :=
  let σ := migrateIfNeeded σ
  let (s?, σ) := loadSnapshot σ
  let (snap, σ) := match s? with | some s => (s, σ) | none => createNewList σ
  let items := snap.items.map (fun it => if it.id = id then { it with done := !it.done } else it)
  let (t, σ) := nowIso σ
  let updated : ListSnapshot := { snap with items := items, updatedAt := some t }
  let σ := persistUpdated updated σ
  let σ :=
    if online then σ
    else
      let (ts, σ) := now σ
      queue (.toggle id ts (some snap.id)) σ
  (updated, σ)

/-- deleteItem (api.ts lines 265-279): filter the matching id out. -/
def deleteItem (id : String) (online : Bool) (σ : St) : ListSnapshot × St :=
  let σ := migrateIfNeeded σ
  let (s?, σ) := loadSnapshot σ
  let (snap, σ) := match s? with | some s => (s, σ) | none => createNewList σ
  let items := snap.items.filter (fun it => it.id ≠ id)
  let (t, σ) := nowIso σ
  let updated : ListSnapshot := { snap with items := items, updatedAt := some t }
  let σ := persistUpdated updated σ
  let σ :=
    if online then σ
    else
      let (ts, σ) := now σ
      queue (.delete id ts (some snap.id)) σ
  (updated, σ)

/-- saveSnapshot (api.ts lines 301-309): stamp updatedAt and persist. -/
def saveSnapshot (snap : ListSnapshot) (σ : St) : St :=
  let σ := migrateIfNeeded σ
  let (t, σ) := nowIso σ
  let updated : ListSnapshot := { snap with updatedAt := some t }
  persistUpdated updated σ

/-- nameExists (api.ts lines 313-316): case-insensitive, trim-insensitive
membership in the index (the source's `m.name ?? ""` only defends against
data outside the declared schema, where name is required). -/
def nameExists (name : String) (σ : St) : Bool :=
  let n := normName name
  (readIndex σ).any (fun m => normName m.name = n)

/-- getListMetaByName (api.ts lines 318-322). -/
def getListMetaByName (name : String) (σ : St) : Option ListMeta :=
  let n := normName name
  (readIndex σ).find? (fun m => normName m.name = n)

/-- Result of createAndSelectListUnique: \x7bok:true, list\x7d or
\x7bok:false, reason: "duplicate" | "invalid"\x7d. -/
inductive CreateUniqueResult where
  | success (list : ListSnapshot)
  | duplicate
  | invalid
deriving DecidableEq, Repr

/-- createAndSelectListUnique (api.ts lines 324-335). -/
def createAndSelectListUnique (name : String) (σ : St) : CreateUniqueResult × St :=
  let σ := migrateIfNeeded σ
  let trimmed := jsTrim name
  if trimmed = "" then (.invalid, σ)
  else if nameExists trimmed σ then (.duplicate, σ)
  else
    let (created, σ) := createAndSelectList trimmed σ
    (.success created, σ)

/-- Result of renameCurrentListUnique: \x7bok:true, list\x7d or
\x7bok:false, reason: "duplicate" | "notfound" | "invalid"\x7d. -/
inductive RenameUniqueResult where
  | success (list : ListSnapshot)
  | duplicate
  | notfound
  | invalid
deriving DecidableEq, Repr

/-- renameCurrentListUnique (api.ts lines 337-363). -/
def renameCurrentListUnique (newName : String) (σ : St) : RenameUniqueResult × St :=
  let σ := migrateIfNeeded σ
  match currentIdIfTruthy σ with
  | none => (.notfound, σ)
  | some id =>
    match readListDoc id σ with
    | none => (.notfound, σ)
    | some snap =>
      let candidate := jsTrim newName
      if candidate = "" then (.invalid, σ)
      else if (readIndex σ).any
          (fun m => m.id ≠ id && normName m.name = normName candidate) then
        (.duplicate, σ)
      else
        let (t, σ) := nowIso σ
        let updated : ListSnapshot :=
          { snap with name := some (fallbackName (some candidate)), updatedAt := some t }
        let σ := writeListDoc updated σ
        let (meta, σ) := safeMeta id updated.name updated.updatedAt none σ
        let σ := upsertMeta meta σ
        let σ := { σ with legacy := .ok updated }
        (.success updated, σ)

/-- openExistingByName (api.ts lines 365-370). -/
def openExistingByName (name : String) (σ : St) : Option ListSnapshot × St :=
  let σ := migrateIfNeeded σ
  match getListMetaByName name σ with
  | none => (none, σ)
  | some meta => selectList meta.id σ

/-- Run of the sequential sender loop of flushPendingOps on the queued ops.
`sendOk k op` tells whether the k-th sender invocation (0-based), which
receives op, resolves (true) or rejects (false).  Returns whether every call
resolved, together with the trace of ops actually handed to the sender, in
invocation order. -/
def flushRun (sendOk : Nat → PendingOp → Bool) (k : Nat) :
    List PendingOp → Bool × List PendingOp
  | [] => (true, [])
  | op :: rest =>
    if sendOk k op then
      let (b, tr) := flushRun sendOk (k + 1) rest
      (b, op :: tr)
    else (false, [op])

/-- flushPendingOps (api.ts lines 374-381): replay the queue in order through
the sender; clear only after the full iteration succeeds; a rejection
propagates (second component false) leaving the queue untouched. -/
def flushPendingOps (sendOk : Nat → PendingOp → Bool) (σ : St) :
    St × Bool × List PendingOp :=
  let ops := loadOps σ
  if ops = [] then (σ, true, [])
  else
    let (b, tr) := flushRun sendOk 0 ops
    if b then (saveOps [] σ, true, tr) else (σ, false, tr)

/-- resetStorage (api.ts lines 383-397): remove every store key, including all
per-list documents, and clear the selection. -/
def resetStorage (σ : St) : St :=
  { σ with legacy := .absent, pending := .absent, index := .absent,
           currentId := none, docs := [] }

/- ----------------- sequences of public mutating operations ----------------- -/

/-- One public mutating operation of the facade, with the call's environment
inputs attached: the isOnline() reading for the item mutations, and the
per-invocation outcomes of the sender for flush. -/
inductive Op where
  | createAndSelect (name : String)
  | select (id : String)
  | renameCurrent (name : String)
  | deleteList (id : String)
  | createNew
  | replaceAll (items : List Item)
  | add (it : Item) (online : Bool)
  | update (id : String) (patch : ItemPatch) (online : Bool)
  | toggle (id : String) (online : Bool)
  | removeIt (id : String) (online : Bool)
  | save (snap : ListSnapshot)
  | load
  | createUnique (name : String)
  | renameUnique (name : String)
  | openByName (name : String)
  | flush (sendOk : Nat → PendingOp → Bool)
  | reset

/-- State effect of one public mutating operation (results dropped). -/
def Op.step (σ : St) : Op → St
  | .createAndSelect name => (createAndSelectList name σ).2
  | .select id => (selectList id σ).2
  | .renameCurrent name => (renameCurrentList name σ).2
  | .deleteList id => deleteListById id σ
  | .createNew => (createNewList σ).2
  | .replaceAll items => (replaceItems items σ).2
  | .add it online => (addItem it online σ).2
  | .update id patch online => (updateItem id patch online σ).2
  | .toggle id online => (toggleItem id online σ).2
  | .removeIt id online => (deleteItem id online σ).2
  | .save snap => saveSnapshot snap σ
  | .load => (loadSnapshot σ).2
  | .createUnique name => (createAndSelectListUnique name σ).2
  | .renameUnique name => (renameCurrentListUnique name σ).2
  | .openByName name => (openExistingByName name σ).2
  | .flush sendOk => (flushPendingOps sendOk σ).1
  | .reset => resetStorage σ

/-- Sequential execution of a list of public mutating operations. -/
def runOps (ops : List Op) (σ : St) : St :=
  match ops with
  | [] => σ
  | op :: rest => runOps rest (Op.step σ op)

/- ----------------- general lemmas ----------------- -/

theorem uuid_ne_empty (n : Nat) : ("id-" ++ toString n) ≠ "" := by
  intro h
  have hl := congrArg String.length h
  rw [String.length_append] at hl
  have h3 : "id-".length = 3 := rfl
  have h0 : "".length = 0 := rfl
  rw [h3, h0] at hl
  omega

theorem truthy_uuid (n : Nat) : truthyStr (some ("id-" ++ toString n)) = true := by
  simp [truthyStr, uuid_ne_empty n]

theorem migrateBody_currentId (σ : St) :
    (migrateBody σ).currentId = some ("id-" ++ toString σ.ids) := by
  obtain ⟨leg, pend, idx, cur, dcs, clk, ids⟩ := σ
  cases leg with
  | ok d => obtain ⟨di, dn, dc, du, dits⟩ := d; cases du <;> rfl
  | absent => rfl
  | corrupt => rfl

theorem migrateBody_index_ok (σ : St) : ∃ l, (migrateBody σ).index = Slot.ok l := by
  obtain ⟨leg, pend, idx, cur, dcs, clk, ids⟩ := σ
  cases leg with
  | ok d => obtain ⟨di, dn, dc, du, dits⟩ := d; cases du <;> exact ⟨_, rfl⟩
  | absent => exact ⟨_, rfl⟩
  | corrupt => exact ⟨_, rfl⟩

/-- Migration runs exactly when the guard says so; afterwards it never says so
again. -/
theorem migrationNeeded_migrateIfNeeded (σ : St) :
    migrationNeeded (migrateIfNeeded σ) = false := by
  cases h : migrationNeeded σ with
  | false => simp [migrateIfNeeded, h]
  | true =>
    rw [migrateIfNeeded, h, if_pos rfl]
    obtain ⟨l, hl⟩ := migrateBody_index_ok σ
    have hc := migrateBody_currentId σ
    simp [migrationNeeded, hl, hc, truthy_uuid]

theorem migrateIfNeeded_idem (σ : St) :
    migrateIfNeeded (migrateIfNeeded σ) = migrateIfNeeded σ := by
  have h := migrationNeeded_migrateIfNeeded σ
  rw [migrateIfNeeded, h]
  simp

/-- Run of the sender loop when every invocation resolves. -/
theorem flushRun_all_ok (sendOk : Nat → PendingOp → Bool) (i : Nat) (ops : List PendingOp)
    (h : ∀ k, (hk : k < ops.length) → sendOk (i + k) (ops.get ⟨k, hk⟩) = true) :
    flushRun sendOk i ops = (true, ops) := by
  induction ops generalizing i with
  | nil => rfl
  | cons op rest ih =>
    have h0 : sendOk i op = true := by
      have := h 0 (Nat.succ_pos _)
      simpa using this
    have hr : flushRun sendOk (i + 1) rest = (true, rest) := by
      apply ih
      intro k hk
      have := h (k + 1) (Nat.succ_lt_succ hk)
      simpa [Nat.add_assoc, Nat.add_comm 1 k, Nat.add_left_comm] using this
    simp [flushRun, h0, hr]

/-- Run of the sender loop when the K-th invocation rejects and the earlier
ones resolve: the loop reports failure. -/
theorem flushRun_fails (sendOk : Nat → PendingOp → Bool) (i : Nat) (ops : List PendingOp)
    (K : Nat) (hK : K < ops.length)
    (hfail : sendOk (i + K) (ops.get ⟨K, hK⟩) = false)
    (hpre : ∀ j, (hj : j < K) → sendOk (i + j) (ops.get ⟨j, Nat.lt_trans hj hK⟩) = true) :
    (flushRun sendOk i ops).1 = false := by
  induction ops generalizing i K with
  | nil => exact absurd hK (Nat.not_lt_zero _)
  | cons op rest ih =>
    cases K with
    | zero =>
      have : sendOk i op = false := by simpa using hfail
      simp [flushRun, this]
    | succ K' =>
      have h0 : sendOk i op = true := by
        have := hpre 0 (Nat.succ_pos _)
        simpa using this
      have hK' : K' < rest.length := Nat.lt_of_succ_lt_succ hK
      have hf' : sendOk (i + 1 + K') (rest.get ⟨K', hK'⟩) = false := by
        have := hfail
        simpa [Nat.add_assoc, Nat.add_comm 1 K', Nat.add_left_comm] using this
      have hp' : ∀ j, (hj : j < K') →
          sendOk (i + 1 + j) (rest.get ⟨j, Nat.lt_trans hj hK'⟩) = true := by
        intro j hj
        have := hpre (j + 1) (Nat.succ_lt_succ hj)
        simpa [Nat.add_assoc, Nat.add_comm 1 j, Nat.add_left_comm] using this
      have := ih (i + 1) K' hK' hf' hp'
      simp [flushRun, h0]
      cases hfr : flushRun sendOk (i + 1) rest with
      | mk b tr => simp_all

/-- Trace of the sender loop: always an initial segment of the queue, in
queue order. -/
theorem flushRun_trace (sendOk : Nat → PendingOp → Bool) (i : Nat) (ops : List PendingOp) :
    (flushRun sendOk i ops).2 = ops.take (flushRun sendOk i ops).2.length := by
  induction ops generalizing i with
  | nil => rfl
  | cons op rest ih =>
    by_cases h0 : sendOk i op = true
    · have := ih (i + 1)
      simp [flushRun, h0]
      cases hfr : flushRun sendOk (i + 1) rest with
      | mk b tr =>
        rw [hfr] at this
        simpa using this
    · simp at h0
      simp [flushRun, h0]

/- ----------------- C3 ----------------- -/

/-- C3: migration is idempotent: running migrateIfNeeded N times (N ≥ 1) in
succession from any initial storage state yields exactly the same final
storage state (legacy slot, index, current-selection, per-list documents,
and even clock and id supply) as running it once; after one invocation every
subsequent invocation is a no-op that writes nothing. -/
theorem c3_migration_idempotent (σ : St) (n : Nat) (h : 1 ≤ n) :
    migrateIfNeeded^[n] σ = migrateIfNeeded σ := by
  induction n with
  | zero => exact absurd h (by decide)
  | succ m ih =>
    cases m with
    | zero => simp
    | succ k =>
      rw [Function.iterate_succ_apply', ih (Nat.succ_le_succ (Nat.zero_le k)),
        migrateIfNeeded_idem]

theorem c3_witness :
    1 ≤ 3 ∧ migrateIfNeeded^[3] emptySt = migrateIfNeeded emptySt :=
  ⟨by decide, c3_migration_idempotent emptySt 3 (by decide)⟩

/- ----------------- C2 ----------------- -/

theorem loadOps_saveOps (l : List PendingOp) (σ : St) : loadOps (saveOps l σ) = l := rfl

theorem flushPendingOps_empty (sendOk : Nat → PendingOp → Bool) (σ : St)
    (hops : loadOps σ = []) : flushPendingOps sendOk σ = (σ, true, []) := by
  simp [flushPendingOps, hops]

theorem flushPendingOps_eq (sendOk : Nat → PendingOp → Bool) (σ : St)
    (hops : loadOps σ ≠ []) :
    flushPendingOps sendOk σ =
      if (flushRun sendOk 0 (loadOps σ)).1 = true
      then (saveOps [] σ, true, (flushRun sendOk 0 (loadOps σ)).2)
      else (σ, false, (flushRun sendOk 0 (loadOps σ)).2) := by
  simp only [flushPendingOps]
  rw [if_neg hops]

/-- C2: flush is all-or-nothing on the queue: if the sender resolves on every
queued op, the persisted queue afterwards is empty; if the sender rejects on
the K-th op (earlier ones resolving), flushPendingOps propagates the rejection
and the persisted queue afterwards still contains all original ops unchanged
(the whole state is untouched). -/
theorem c2_flush_all_or_nothing (σ : St) (sendOk : Nat → PendingOp → Bool) :
    ((∀ k, (hk : k < (loadOps σ).length) → sendOk k ((loadOps σ).get ⟨k, hk⟩) = true) →
        loadOps (flushPendingOps sendOk σ).1 = []) ∧
    (∀ K, (hK : K < (loadOps σ).length) →
      sendOk K ((loadOps σ).get ⟨K, hK⟩) = false →
      (∀ j, (hj : j < K) → sendOk j ((loadOps σ).get ⟨j, Nat.lt_trans hj hK⟩) = true) →
      (flushPendingOps sendOk σ).1 = σ ∧ (flushPendingOps sendOk σ).2.1 = false) := by
  constructor
  · intro hall
    by_cases hops : loadOps σ = []
    · rw [flushPendingOps_empty sendOk σ hops]
      exact hops
    · have hrun : flushRun sendOk 0 (loadOps σ) = (true, loadOps σ) := by
        apply flushRun_all_ok
        intro k hk
        simpa using hall k hk
      rw [flushPendingOps_eq sendOk σ hops, hrun]
      simp [loadOps_saveOps]
  · intro K hK hfail hpre
    have hops : ¬(loadOps σ = []) := by
      intro h
      rw [h] at hK
      exact absurd hK (by simp)
    have hrun : (flushRun sendOk 0 (loadOps σ)).1 = false := by
      apply flushRun_fails sendOk 0 (loadOps σ) K hK
      · simpa using hfail
      · intro j hj
        simpa using hpre j hj
    rw [flushPendingOps_eq sendOk σ hops, if_neg (by simp [hrun])]
    exact ⟨rfl, rfl⟩

def c2Queue : St :=
  { pending := Slot.ok [PendingOp.toggle "a" 0 none, PendingOp.toggle "b" 1 none] }

def c2Sender : Nat → PendingOp → Bool := fun k _ => k == 0

theorem c2_witness :
    (flushPendingOps c2Sender c2Queue).1 = c2Queue ∧
      (flushPendingOps c2Sender c2Queue).2.1 = false :=
  (c2_flush_all_or_nothing c2Queue c2Sender).2 1 (by decide) (by decide)
    (fun j hj => by
      have hj0 : j = 0 := by omega
      subst hj0
      rfl)

/- ----------------- C6 ----------------- -/

/-- C6: flush replays ops strictly in enqueue order: enqueue appends each new
pending op at the end of the persisted queue, and the sequential sender loop
of flushPendingOps hands ops to the sender one at a time, its invocation
trace being an initial segment of the queue in queue order (the k-th
invocation receives the k-th queued op); when every invocation resolves, the
trace is the whole queue. -/
theorem c6_flush_order (σ : St) (op : PendingOp) (sendOk : Nat → PendingOp → Bool) :
    loadOps (queue op σ) = loadOps σ ++ [op] ∧
    (flushPendingOps sendOk σ).2.2 =
      (loadOps σ).take (flushPendingOps sendOk σ).2.2.length ∧
    ((∀ k, (hk : k < (loadOps σ).length) → sendOk k ((loadOps σ).get ⟨k, hk⟩) = true) →
      (flushPendingOps sendOk σ).2.2 = loadOps σ) := by
  refine ⟨rfl, ?_, ?_⟩
  · by_cases hops : loadOps σ = []
    · rw [flushPendingOps_empty sendOk σ hops]
      simp
    · have htr := flushRun_trace sendOk 0 (loadOps σ)
      rw [flushPendingOps_eq sendOk σ hops]
      cases hfr : flushRun sendOk 0 (loadOps σ) with
      | mk b tr =>
        rw [hfr] at htr
        simp only at htr
        cases b <;> simpa using htr
  · intro hall
    by_cases hops : loadOps σ = []
    · rw [flushPendingOps_empty sendOk σ hops]
      simpa using hops.symm
    · have hrun : flushRun sendOk 0 (loadOps σ) = (true, loadOps σ) := by
        apply flushRun_all_ok
        intro k hk
        simpa using hall k hk
      rw [flushPendingOps_eq sendOk σ hops, hrun]
      simp

def c6Queue : St :=
  { pending := Slot.ok [PendingOp.add ⟨"i1", "Bread", false, none, none, none, none⟩ 0 none,
                        PendingOp.toggle "i1" 1 none, PendingOp.delete "i1" 2 none] }

theorem c6_witness :
    loadOps (queue (PendingOp.toggle "z" 9 none) c6Queue) =
        loadOps c6Queue ++ [PendingOp.toggle "z" 9 none] ∧
      (flushPendingOps (fun _ _ => true) c6Queue).2.2 = loadOps c6Queue :=
  ⟨(c6_flush_order c6Queue (PendingOp.toggle "z" 9 none) (fun _ _ => true)).1,
   (c6_flush_order c6Queue (PendingOp.toggle "z" 9 none) (fun _ _ => true)).2.2
     (fun _ _ => rfl)⟩

/- ----------------- C4 ----------------- -/

theorem migrateBody_index_meta (σ : St) :
    ∃ m, (migrateBody σ).index = Slot.ok [m] ∧ m.id = "id-" ++ toString σ.ids := by
  obtain ⟨leg, pend, idx, cur, dcs, clk, ids⟩ := σ
  cases leg with
  | ok d =>
    obtain ⟨di, dn, dc, du, dits⟩ := d
    cases du <;> exact ⟨_, rfl, rfl⟩
  | absent => exact ⟨_, rfl, rfl⟩
  | corrupt => exact ⟨_, rfl, rfl⟩

/-- Storage state holding nothing but a legacy single-list document. -/
def legacyOnly (d : ListSnapshot) : St := { legacy := Slot.ok d }

/-- Migration whose guard does not fire leaves the state untouched. -/
theorem migrateIfNeeded_skip (σ : St) (h : migrationNeeded σ = false) :
    migrateIfNeeded σ = σ := by
  simp [migrateIfNeeded, h]

/-- C4: migration triggers exactly when (the index key is absent or the
current-selection key is absent) and a legacy document exists, and it
preserves the legacy data: from a storage state holding only a legacy document
with createdAt C and a non-empty items sequence of length L, getAllLists
returns exactly one ListMeta whose name is the trimmed legacy name or
"My list" and whose createdAt equals C, and loadSnapshot returns a snapshot
whose items sequence has length L. -/
theorem c4_migration_trigger_preserves :
    (∀ σ : St, migrationNeeded σ =
      ((σ.index = Slot.absent || !truthyStr σ.currentId) && σ.legacy ≠ Slot.absent)) ∧
    (∀ σ : St, migrationNeeded σ = false → migrateIfNeeded σ = σ) ∧
    (∀ σ : St, migrationNeeded σ = true →
      ∃ m, (migrateIfNeeded σ).index = Slot.ok [m] ∧
        (migrateIfNeeded σ).currentId = some m.id) ∧
    (∀ (d : ListSnapshot) (L : Nat), d.items.length = L → 0 < L →
      (∃ id u, (getAllLists (legacyOnly d)).1 = [⟨id, fallbackName d.name, d.createdAt, u⟩]) ∧
      (∃ s, (loadSnapshot (legacyOnly d)).1 = some s ∧ s.items.length = L)) := by
  refine ⟨?_, ?_, ?_, ?_⟩
  · intro σ
    simp only [migrationNeeded]
    cases hidx : σ.index <;> cases hleg : σ.legacy <;>
      cases htr : truthyStr σ.currentId <;> simp
  · intro σ h
    simp [migrateIfNeeded, h]
  · intro σ h
    rw [migrateIfNeeded, h, if_pos rfl]
    obtain ⟨m, hm, hid⟩ := migrateBody_index_meta σ
    refine ⟨m, hm, ?_⟩
    rw [migrateBody_currentId σ, hid]
  · intro d L hL hpos
    obtain ⟨di, dn, dc, du, dits⟩ := d
    cases du with
    | none =>
      have hm : migrateIfNeeded (legacyOnly ⟨di, dn, dc, none, dits⟩) =
          { legacy := Slot.ok ⟨"id-" ++ toString 0, some (fallbackName dn), dc, some 0, dits⟩,
            pending := Slot.absent,
            index := Slot.ok [⟨"id-" ++ toString 0, fallbackName dn, dc, 0⟩],
            currentId := some ("id-" ++ toString 0),
            docs := [("id-" ++ toString 0,
              Slot.ok ⟨"id-" ++ toString 0, some (fallbackName dn), dc, some 0, dits⟩)],
            clock := 1, ids := 1 } := rfl
      refine ⟨⟨"id-" ++ toString 0, 0, ?_⟩,
        ⟨⟨"id-" ++ toString 0, some (fallbackName dn), dc, some 0, dits⟩, ?_,
          by simpa using hL⟩⟩
      · show sortByUpdatedDesc
            (readIndex (migrateIfNeeded (legacyOnly ⟨di, dn, dc, none, dits⟩))) = _
        rw [hm]
        rfl
      · show resolveSnap (migrateIfNeeded (legacyOnly ⟨di, dn, dc, none, dits⟩)) = _
        rw [hm]
        rfl
    | some u =>
      have hm : migrateIfNeeded (legacyOnly ⟨di, dn, dc, some u, dits⟩) =
          { legacy := Slot.ok ⟨"id-" ++ toString 0, some (fallbackName dn), dc, some u, dits⟩,
            pending := Slot.absent,
            index := Slot.ok [⟨"id-" ++ toString 0, fallbackName dn, dc, u⟩],
            currentId := some ("id-" ++ toString 0),
            docs := [("id-" ++ toString 0,
              Slot.ok ⟨"id-" ++ toString 0, some (fallbackName dn), dc, some u, dits⟩)],
            clock := 0, ids := 1 } := rfl
      refine ⟨⟨"id-" ++ toString 0, u, ?_⟩,
        ⟨⟨"id-" ++ toString 0, some (fallbackName dn), dc, some u, dits⟩, ?_,
          by simpa using hL⟩⟩
      · show sortByUpdatedDesc
            (readIndex (migrateIfNeeded (legacyOnly ⟨di, dn, dc, some u, dits⟩))) = _
        rw [hm]
        rfl
      · show resolveSnap (migrateIfNeeded (legacyOnly ⟨di, dn, dc, some u, dits⟩)) = _
        rw [hm]
        rfl

/-- Legacy document of the spec's migration scenario (timestamps as Nat). -/
def c4Doc : ListSnapshot :=
  ⟨"L1", none, 2024, none, [⟨"i1", "Eggs", false, none, none, none, none⟩]⟩

theorem c4_witness :
    migrateIfNeeded emptySt = emptySt ∧
    (∃ m, (migrateIfNeeded (legacyOnly c4Doc)).index = Slot.ok [m] ∧
      (migrateIfNeeded (legacyOnly c4Doc)).currentId = some m.id) ∧
    (∃ id u, (getAllLists (legacyOnly c4Doc)).1 =
      [⟨id, fallbackName c4Doc.name, c4Doc.createdAt, u⟩]) ∧
    (∃ s, (loadSnapshot (legacyOnly c4Doc)).1 = some s ∧ s.items.length = 1) :=
  ⟨c4_migration_trigger_preserves.2.1 emptySt (by decide),
   c4_migration_trigger_preserves.2.2.1 (legacyOnly c4Doc) (by decide),
   (c4_migration_trigger_preserves.2.2.2 c4Doc 1 rfl (by decide)).1,
   (c4_migration_trigger_preserves.2.2.2 c4Doc 1 rfl (by decide)).2⟩

/- ----------------- C5 ----------------- -/

/-- Storage state refuting C5 as stated: an unmigrated, legacy-only state. -/
def c5Doc : ListSnapshot := ⟨"L", some "A", 5, some 2, []⟩

/-- C5 is false as stated over every storage state: on an unmigrated
legacy-only state, "x" is not the current selection (there is none), yet
deleteListById "x" changes the selection, because the migration step that
every public operation runs first sets the selection to the newly migrated
list's id. -/
theorem c5_counterexample :
    (legacyOnly c5Doc).currentId ≠ some "x" ∧
    (deleteListById "x" (legacyOnly c5Doc)).currentId ≠ (legacyOnly c5Doc).currentId := by
  decide

/-- Body of deleteListById with the (skipped) migration call removed; used to
characterize deleteListById on already-migrated states. -/
def deleteBodyNoMig (id : String) (σ : St) : St :=
  let σ₁ : St := { σ with docs := removeDoc id σ.docs }
  let next := (readIndex σ).filter (fun m => m.id ≠ id)
  let σ₂ := writeIndex next σ₁
  if getCurrentListId σ₂ = some id then
    match next with
    | [] => { clearCurrentListId σ₂ with legacy := Slot.absent }
    | m :: _ =>
      let σ₃ := setCurrentListId m.id σ₂
      match readListDoc m.id σ₃ with
      | some doc => { σ₃ with legacy := Slot.ok doc }
      | none => σ₃
  else σ₂

theorem deleteListById_skip (σ : St) (id : String) (hmig : migrationNeeded σ = false) :
    deleteListById id σ = deleteBodyNoMig id σ := by
  simp only [deleteListById]
  rw [migrateIfNeeded_skip σ hmig]
  rfl

/-- C5 amended: in every storage state in which migration is not needed
(otherwise the migration step may first reassign the selection),
deleteListById(id) with id equal to the current selection sets the selection
to the first remaining index entry's id if the index is non-empty after
removal and clears it entirely if the index becomes empty, and
deleteListById(id) with id not equal to the current selection leaves the
selection unchanged. -/
theorem c5_selection_repair_amended (σ : St) (id : String)
    (hmig : migrationNeeded σ = false) :
    (σ.currentId = some id →
      (deleteListById id σ).currentId =
        (match (readIndex σ).filter (fun m => m.id ≠ id) with
          | [] => none
          | m :: _ => some m.id)) ∧
    (σ.currentId ≠ some id → (deleteListById id σ).currentId = σ.currentId) := by
  rw [deleteListById_skip σ id hmig]
  simp only [deleteBodyNoMig, getCurrentListId, writeIndex]
  constructor
  · intro hcur
    rw [if_pos hcur]
    split <;> first
      | rfl
      | (split <;> rfl)
  · intro hcur
    rw [if_neg hcur]

/-- Migrated two-list state for the C5 witness: "a" selected, "b" also present. -/
def c5St : St :=
  { legacy := Slot.ok ⟨"a", some "A", 0, some 2, []⟩,
    pending := Slot.absent,
    index := Slot.ok [⟨"a", "A", 0, 2⟩, ⟨"b", "B", 0, 1⟩],
    currentId := some "a",
    docs := [("a", Slot.ok ⟨"a", some "A", 0, some 2, []⟩),
             ("b", Slot.ok ⟨"b", some "B", 0, some 1, []⟩)],
    clock := 3, ids := 0 }

theorem c5_witness :
    (deleteListById "a" c5St).currentId = some "b" ∧
      (deleteListById "zzz" c5St).currentId = some "a" :=
  ⟨((c5_selection_repair_amended c5St "a" (by decide)).1 rfl).trans (by decide),
   ((c5_selection_repair_amended c5St "zzz" (by decide)).2 (by decide)).trans (by decide)⟩

/- ----------------- characterizations of the write helpers ----------------- -/

/-- Index update performed by writeListDoc: replace the first entry with the
meta's id, else unshift. -/
def upsertList (meta : ListMeta) (l : List ListMeta) : List ListMeta :=
  match upsertAt meta l with
  | some l' => l'
  | none => meta :: l

/-- Index update performed by upsertMeta: replace every entry with the meta's
id when one exists, else append. -/
def upsertMap (meta : ListMeta) (l : List ListMeta) : List ListMeta :=
  if l.any (fun m => m.id = meta.id) then l.map (fun m => if m.id = meta.id then meta else m)
  else l ++ [meta]

theorem upsertMeta_eq (meta : ListMeta) (σ : St) :
    upsertMeta meta σ = writeIndex (upsertMap meta (readIndex σ)) σ := rfl

theorem writeListDoc_eq (snap : ListSnapshot) (σ : St) :
    writeListDoc snap σ =
      { σ with
        docs := setDoc snap.id (.ok snap) σ.docs,
        legacy := if σ.currentId = some snap.id then .ok snap else σ.legacy,
        index := .ok (sortByUpdatedDesc (upsertList
          ⟨snap.id, fallbackName snap.name, snap.createdAt, snap.updatedAt.getD σ.clock⟩
          (readIndex σ))),
        clock := match snap.updatedAt with | some _ => σ.clock | none => σ.clock + 1 } := by
  cases hu : snap.updatedAt <;> by_cases hc : σ.currentId = some snap.id <;>
    first
      | (rw [if_pos hc]
         simp only [writeListDoc, writeIndex, nowIso, getCurrentListId, upsertList, hu,
           Option.getD]
         rw [if_pos hc]
         try rfl)
      | (rw [if_neg hc]
         simp only [writeListDoc, writeIndex, nowIso, getCurrentListId, upsertList, hu,
           Option.getD]
         rw [if_neg hc]
         try rfl)

theorem safeMeta_eq (id : String) (nm : Option String) (u : Nat) (σ : St) (p : ListMeta)
    (hp : (readIndex σ).find? (fun m => m.id = id) = some p) :
    safeMeta id nm (some u) none σ =
      (⟨id, fallbackName (match nm with | some s => some s | none => some p.name),
        p.createdAt, u⟩, σ) := by
  simp only [safeMeta, nowIso, hp]
  cases nm <;> rfl

theorem toMeta_eq (snap : ListSnapshot) (σ : St) (u : Nat) (s : String)
    (hu : snap.updatedAt = some u) (hn : snap.name = some s) :
    toMeta snap σ = (⟨snap.id, fallbackName (some s), snap.createdAt, u⟩, σ) := by
  simp only [toMeta, safeMeta, hu, hn]

theorem createNewList_eq (σ : St) (hmig : migrationNeeded σ = false) :
    createNewList σ =
      (⟨"id-" ++ toString σ.ids, some "My list", σ.clock, some σ.clock, []⟩,
       { legacy := Slot.ok ⟨"id-" ++ toString σ.ids, some "My list", σ.clock, some σ.clock, []⟩,
         pending := σ.pending,
         index := Slot.ok (upsertMap
           ⟨"id-" ++ toString σ.ids, "My list", σ.clock, σ.clock⟩
           (sortByUpdatedDesc (upsertList
             ⟨"id-" ++ toString σ.ids, "My list", σ.clock, σ.clock⟩ (readIndex σ)))),
         currentId := some ("id-" ++ toString σ.ids),
         docs := setDoc ("id-" ++ toString σ.ids)
           (Slot.ok ⟨"id-" ++ toString σ.ids, some "My list", σ.clock, some σ.clock, []⟩) σ.docs,
         clock := σ.clock + 1,
         ids := σ.ids + 1 }) := by
  have hfb : fallbackName (some "My list") = "My list" := rfl
  simp only [createNewList, migrateIfNeeded_skip σ hmig]
  by_cases htr : truthyStr (getCurrentListId σ) = true
  · rw [if_pos htr]
    simp only [createAndSelectList, migrateIfNeeded_skip σ hmig, uuid, nowIso,
      writeListDoc_eq, toMeta, safeMeta, upsertMeta_eq, writeIndex, setCurrentListId,
      readIndex, getCurrentListId, ite_self, Option.getD_some, hfb]
  · rw [if_neg htr]
    simp only [uuid, nowIso, writeListDoc_eq, toMeta, safeMeta, upsertMeta_eq,
      writeIndex, setCurrentListId, readIndex, getCurrentListId, ite_self,
      Option.getD_some, hfb]

theorem lookupDoc_setDoc_self (k : String) (v : Slot ListSnapshot)
    (l : List (String × Slot ListSnapshot)) : lookupDoc k (setDoc k v l) = some v := by
  induction l with
  | nil => simp [setDoc, lookupDoc]
  | cons e rest ih =>
    obtain ⟨k1, v1⟩ := e
    by_cases h : k1 = k <;> simp [setDoc, lookupDoc, h, ih]

theorem lookupDoc_setDoc_ne (k k2 : String) (v : Slot ListSnapshot)
    (l : List (String × Slot ListSnapshot)) (h : k2 ≠ k) :
    lookupDoc k2 (setDoc k v l) = lookupDoc k2 l := by
  induction l with
  | nil => simp [setDoc, lookupDoc, Ne.symm h]
  | cons e rest ih =>
    obtain ⟨k1, v1⟩ := e
    by_cases h1 : k1 = k
    · subst h1
      simp [setDoc, lookupDoc, Ne.symm h]
    · by_cases h2 : k1 = k2 <;> simp [setDoc, lookupDoc, h1, h2, h, ih]

theorem persistUpdated_currentId (u : ListSnapshot) (σ : St) :
    (persistUpdated u σ).currentId = σ.currentId := by
  simp only [persistUpdated, upsertMeta_eq, writeIndex, safeMeta, writeListDoc_eq, nowIso]
  cases hu : u.updatedAt <;> simp only [hu] <;> split <;> rfl

theorem persistUpdated_pending (u : ListSnapshot) (σ : St) :
    (persistUpdated u σ).pending = σ.pending := by
  simp only [persistUpdated, upsertMeta_eq, writeIndex, safeMeta, writeListDoc_eq, nowIso]
  cases hu : u.updatedAt <;> simp only [hu] <;> split <;> rfl

theorem persistUpdated_docs (u : ListSnapshot) (σ : St) :
    (persistUpdated u σ).docs = setDoc u.id (Slot.ok u) σ.docs := by
  simp only [persistUpdated, upsertMeta_eq, writeIndex, safeMeta, writeListDoc_eq, nowIso]
  cases hu : u.updatedAt <;> simp only [hu] <;> split <;> rfl

theorem persistUpdated_legacy (u : ListSnapshot) (σ : St) :
    (persistUpdated u σ).legacy = Slot.ok u := rfl

theorem persistUpdated_ids (u : ListSnapshot) (σ : St) :
    (persistUpdated u σ).ids = σ.ids := by
  simp only [persistUpdated, upsertMeta_eq, writeIndex, safeMeta, writeListDoc_eq, nowIso]
  cases hu : u.updatedAt <;> simp only [hu] <;> split <;> rfl

/- ----------------- C7 ----------------- -/

/-- C7: auto-create on first item mutation: on completely fresh storage,
loadSnapshot returns null; and whenever no current list can be resolved (in a
migrated state, so that the resolution is the operation's own), every item
mutation (addItem, updateItem, toggleItem, deleteItem, replaceItems) first
creates a new list named "My list" and selects it, then applies its mutation;
in particular addItem x returns a persisted snapshot whose items are exactly
[x]. -/
theorem c7_auto_create :
    (loadSnapshot emptySt).1 = none ∧
    (∀ (σ : St) (x : Item) (i : String) (patch : ItemPatch) (its : List Item) (online : Bool),
      migrationNeeded σ = false → resolveSnap σ = none →
      ((addItem x online σ).1.id = "id-" ++ toString σ.ids ∧
        (addItem x online σ).1.name = some "My list" ∧
        (addItem x online σ).1.items = [x] ∧
        (addItem x online σ).2.currentId = some ("id-" ++ toString σ.ids) ∧
        readListDoc ("id-" ++ toString σ.ids) (addItem x online σ).2 =
          some (addItem x online σ).1) ∧
      ((updateItem i patch online σ).1.id = "id-" ++ toString σ.ids ∧
        (updateItem i patch online σ).1.items = [] ∧
        (updateItem i patch online σ).2.currentId = some ("id-" ++ toString σ.ids)) ∧
      ((toggleItem i online σ).1.id = "id-" ++ toString σ.ids ∧
        (toggleItem i online σ).1.items = [] ∧
        (toggleItem i online σ).2.currentId = some ("id-" ++ toString σ.ids)) ∧
      ((deleteItem i online σ).1.id = "id-" ++ toString σ.ids ∧
        (deleteItem i online σ).1.items = [] ∧
        (deleteItem i online σ).2.currentId = some ("id-" ++ toString σ.ids)) ∧
      ((replaceItems its σ).1.id = "id-" ++ toString σ.ids ∧
        (replaceItems its σ).1.items = its ∧
        (replaceItems its σ).2.currentId = some ("id-" ++ toString σ.ids))) := by
  refine ⟨rfl, ?_⟩
  intro σ x i patch its online hmig hres
  have hcn := createNewList_eq σ hmig
  refine ⟨?_, ?_, ?_, ?_, ?_⟩
  · simp only [addItem, loadSnapshot, migrateIfNeeded_skip σ hmig, hres, hcn, nowIso]
    refine ⟨?_, ?_, ?_, ?_, ?_⟩ <;>
      first
        | trivial
        | (simp
           done)
        | (cases online <;>
            simp [readListDoc, persistUpdated_currentId, persistUpdated_docs,
              lookupDoc_setDoc_self, queue, saveOps, now]
           done)
  · simp only [updateItem, loadSnapshot, migrateIfNeeded_skip σ hmig, hres, hcn, nowIso]
    refine ⟨?_, ?_, ?_⟩ <;>
      first
        | trivial
        | (simp
           done)
        | (cases online <;> simp [persistUpdated_currentId, queue, saveOps, now]
           done)
  · simp only [toggleItem, loadSnapshot, migrateIfNeeded_skip σ hmig, hres, hcn, nowIso]
    refine ⟨?_, ?_, ?_⟩ <;>
      first
        | trivial
        | (simp
           done)
        | (cases online <;> simp [persistUpdated_currentId, queue, saveOps, now]
           done)
  · simp only [deleteItem, loadSnapshot, migrateIfNeeded_skip σ hmig, hres, hcn, nowIso]
    refine ⟨?_, ?_, ?_⟩ <;>
      first
        | trivial
        | (simp
           done)
        | (cases online <;> simp [persistUpdated_currentId, queue, saveOps, now]
           done)
  · simp only [replaceItems, loadSnapshot, migrateIfNeeded_skip σ hmig, hres, hcn, nowIso]
    refine ⟨?_, ?_, ?_⟩ <;>
      first
        | trivial
        | (simp
           done)
        | (simp [persistUpdated_currentId]
           done)

theorem c7_witness :
    migrationNeeded emptySt = false ∧ resolveSnap emptySt = none ∧
    (addItem ⟨"i1", "Bread", false, none, none, none, none⟩ true emptySt).1.items =
      [⟨"i1", "Bread", false, none, none, none, none⟩] ∧
    (addItem ⟨"i1", "Bread", false, none, none, none, none⟩ true emptySt).1.name =
      some "My list" :=
  ⟨by decide, rfl,
   (c7_auto_create.2 emptySt ⟨"i1", "Bread", false, none, none, none, none⟩ "z" {} [] true
     (by decide) rfl).1.2.2.1,
   (c7_auto_create.2 emptySt ⟨"i1", "Bread", false, none, none, none, none⟩ "z" {} [] true
     (by decide) rfl).1.2.1⟩

/- ----------------- C8 ----------------- -/

theorem jsTrim_idem (s : String) : jsTrim (jsTrim s) = jsTrim s := by
  unfold jsTrim
  congr 1
  show (((s.data.dropWhile wsChar).rdropWhile wsChar).dropWhile wsChar).rdropWhile wsChar
      = (s.data.dropWhile wsChar).rdropWhile wsChar
  have h1 : ((s.data.dropWhile wsChar).rdropWhile wsChar).dropWhile wsChar
      = (s.data.dropWhile wsChar).rdropWhile wsChar := by
    rw [List.dropWhile_eq_self_iff]
    intro hl
    obtain ⟨t, ht⟩ := List.rdropWhile_prefix wsChar (s.data.dropWhile wsChar)
    have hm : 0 < (s.data.dropWhile wsChar).length := by
      rw [← ht, List.length_append]
      omega
    have hget : ((s.data.dropWhile wsChar).rdropWhile wsChar).get ⟨0, hl⟩ =
        (s.data.dropWhile wsChar).get ⟨0, hm⟩ := by
      have h02 := List.get_of_eq ht ⟨0, by rw [List.length_append]; omega⟩
      have h01 := @List.get_append Char ((s.data.dropWhile wsChar).rdropWhile wsChar) t 0 hl
      exact h01.symm.trans h02
    rw [hget]
    exact List.dropWhile_get_zero_not wsChar s.data hm
  rw [h1, List.rdropWhile_idempotent]

theorem normName_jsTrim (s : String) : normName (jsTrim s) = normName s := by
  simp only [normName]
  rw [jsTrim_idem]

theorem normName_empty_of (s : String) (h : jsTrim s = "") : normName s = "" := by
  simp only [normName, h]
  decide

theorem nameExists_iff (name : String) (σ : St) :
    nameExists name σ = true ↔ ∃ m ∈ readIndex σ, normName m.name = normName name := by
  simp [nameExists, List.any_eq_true]

theorem createAndSelectList_select (name : String) (σ : St) :
    (createAndSelectList name σ).2.currentId = some ((createAndSelectList name σ).1.id) := by
  simp only [createAndSelectList, uuid, nowIso, toMeta, safeMeta, setCurrentListId]

/-- C8: name uniqueness is case-insensitive and trim-insensitive: over any
migrated state whose index names do not normalize to the empty string (as is
the case for every name the store itself writes), createAndSelectListUnique(s)
fails with reason duplicate iff some index entry's name equals s under
trimming and lowercasing; it fails with reason invalid when s trims to the
empty string; otherwise it succeeds with the newly created and selected list.
In particular, after createAndSelectListUnique "milk " succeeds on fresh
storage, createAndSelectListUnique "Milk" fails with duplicate and the index
gains no new entry. -/
theorem c8_unique_name (σ : St) (s : String)
    (hmig : migrationNeeded σ = false)
    (hn : ∀ m ∈ readIndex σ, normName m.name ≠ "") :
    ((createAndSelectListUnique s σ).1 = CreateUniqueResult.duplicate ↔
        ∃ m ∈ readIndex σ, normName m.name = normName s) ∧
    (jsTrim s = "" → (createAndSelectListUnique s σ).1 = CreateUniqueResult.invalid) ∧
    (jsTrim s ≠ "" → (∀ m ∈ readIndex σ, normName m.name ≠ normName s) →
      ∃ l, (createAndSelectListUnique s σ).1 = CreateUniqueResult.success l ∧
        (createAndSelectListUnique s σ).2.currentId = some l.id) ∧
    ((∃ l, (createAndSelectListUnique "milk "
        emptySt).1 = CreateUniqueResult.success l) ∧
      (createAndSelectListUnique "Milk"
        (createAndSelectListUnique "milk " emptySt).2).1 = CreateUniqueResult.duplicate ∧
      (readIndex (createAndSelectListUnique "Milk"
          (createAndSelectListUnique "milk " emptySt).2).2).length =
        (readIndex (createAndSelectListUnique "milk " emptySt).2).length) := by
  have hskip := migrateIfNeeded_skip σ hmig
  refine ⟨?_, ?_, ?_, ?_⟩
  · by_cases ht : jsTrim s = ""
    · simp only [createAndSelectListUnique, hskip, ht, if_pos rfl]
      constructor
      · intro h
        exact absurd h (by simp)
      · rintro ⟨m, hm, he⟩
        rw [normName_empty_of s ht] at he
        exact absurd he (hn m hm)
    · simp only [createAndSelectListUnique, hskip]
      rw [if_neg ht]
      by_cases hex : nameExists (jsTrim s) σ = true
      · rw [if_pos hex]
        simp only [true_iff]
        rw [nameExists_iff, normName_jsTrim] at hex
        exact hex
      · rw [if_neg hex]
        rw [nameExists_iff, normName_jsTrim] at hex
        simp [hex]
  · intro ht
    simp [createAndSelectListUnique, hskip, ht]
  · intro ht hnone
    have hex : ¬(nameExists (jsTrim s) σ = true) := by
      rw [nameExists_iff, normName_jsTrim]
      rintro ⟨m, hm, he⟩
      exact hnone m hm he
    simp only [createAndSelectListUnique, hskip]
    rw [if_neg ht, if_neg hex]
    exact ⟨_, rfl, createAndSelectList_select (jsTrim s) σ⟩
  · refine ⟨⟨⟨"id-0", some "milk", 0, some 0, []⟩, ?_⟩, ?_, ?_⟩ <;> decide

/-- Migrated state whose index holds one list named "milk". -/
def c8St : St := { index := Slot.ok [⟨"a", "milk", 0, 0⟩] }

theorem c8_witness :
    (createAndSelectListUnique "Milk" c8St).1 = CreateUniqueResult.duplicate :=
  (c8_unique_name c8St "Milk" (by decide)
      (by
        intro m hm
        simp [readIndex, c8St] at hm
        subst hm
        decide)).1.mpr
    ⟨⟨"a", "milk", 0, 0⟩, by simp [readIndex, c8St], by decide⟩

/- ----------------- C10 ----------------- -/

theorem items_map_noop (f : Item → Item) (x : String) (its : List Item)
    (h : ∀ it ∈ its, it.id ≠ x) :
    its.map (fun it => if it.id = x then f it else it) = its := by
  induction its with
  | nil => rfl
  | cons a rest ih =>
    have ha : a.id ≠ x := h a (List.mem_cons_self a rest)
    simp only [List.map_cons, if_neg ha]
    rw [ih (fun it hit => h it (List.mem_cons_of_mem a hit))]

theorem items_filter_noop (x : String) (its : List Item)
    (h : ∀ it ∈ its, it.id ≠ x) :
    its.filter (fun it => it.id ≠ x) = its := by
  rw [List.filter_eq_self]
  intro a ha
  simpa using h a ha

theorem insertDesc_perm (m : ListMeta) (l : List ListMeta) :
    (insertDesc m l).Perm (m :: l) := by
  induction l with
  | nil => exact List.Perm.refl _
  | cons a rest ih =>
    simp only [insertDesc]
    split
    · exact List.Perm.refl _
    · exact (List.Perm.cons a ih).trans (List.Perm.swap m a rest)

theorem sortByUpdatedDesc_perm (l : List ListMeta) :
    (sortByUpdatedDesc l).Perm l := by
  induction l with
  | nil => exact List.Perm.refl _
  | cons a rest ih =>
    exact (insertDesc_perm a (sortByUpdatedDesc rest)).trans (List.Perm.cons a ih)

theorem upsertAt_some_shape (meta : ListMeta) (l l' : List ListMeta)
    (h : upsertAt meta l = some l') :
    ∃ l₁ x l₂, l = l₁ ++ x :: l₂ ∧ x.id = meta.id ∧
      (∀ y ∈ l₁, y.id ≠ meta.id) ∧ l' = l₁ ++ meta :: l₂ := by
  induction l generalizing l' with
  | nil => simp [upsertAt] at h
  | cons a rest ih =>
    simp only [upsertAt] at h
    by_cases ha : a.id = meta.id
    · rw [if_pos ha] at h
      injection h with h2
      exact ⟨[], a, rest, rfl, ha, by simp, h2.symm⟩
    · rw [if_neg ha] at h
      cases hrec : upsertAt meta rest with
      | none =>
        rw [hrec] at h
        exact absurd h (by simp)
      | some lr =>
        rw [hrec] at h
        injection h with h2
        obtain ⟨l₁, x, l₂, he, hx, hl₁, hlr⟩ := ih lr hrec
        refine ⟨a :: l₁, x, l₂, by simp [he], hx, ?_, by simp [← h2, hlr]⟩
        intro y hy
        rcases List.mem_cons.mp hy with hy | hy
        · rwa [hy]
        · exact hl₁ y hy

theorem upsertAt_none (meta : ListMeta) (l : List ListMeta)
    (h : upsertAt meta l = none) : ∀ y ∈ l, y.id ≠ meta.id := by
  induction l with
  | nil => simp
  | cons a rest ih =>
    simp only [upsertAt] at h
    by_cases ha : a.id = meta.id
    · rw [if_pos ha] at h
      simp at h
    · rw [if_neg ha] at h
      intro y hy
      rcases List.mem_cons.mp hy with hy | hy
      · rwa [hy]
      · cases hrec : upsertAt meta rest with
        | none => exact ih hrec y hy
        | some lr => rw [hrec] at h; simp at h

theorem mem_upsertList_self (meta : ListMeta) (l : List ListMeta) :
    meta ∈ upsertList meta l := by
  unfold upsertList
  cases h : upsertAt meta l with
  | none => exact List.mem_cons_self _ _
  | some l' =>
    obtain ⟨l₁, x, l₂, _, _, _, hl'⟩ := upsertAt_some_shape meta l l' h
    rw [hl']
    simp

theorem find?_writeListDoc (u : ListSnapshot) (σ : St) :
    ∃ b, (readIndex (writeListDoc u σ)).find? (fun m => m.id = u.id) = some b := by
  rw [writeListDoc_eq]
  have hmem : (⟨u.id, fallbackName u.name, u.createdAt,
      u.updatedAt.getD σ.clock⟩ : ListMeta) ∈
      sortByUpdatedDesc (upsertList ⟨u.id, fallbackName u.name, u.createdAt,
        u.updatedAt.getD σ.clock⟩ (readIndex σ)) :=
    ((sortByUpdatedDesc_perm _).mem_iff).mpr (mem_upsertList_self _ _)
  have : ∃ x ∈ sortByUpdatedDesc (upsertList ⟨u.id, fallbackName u.name, u.createdAt,
      u.updatedAt.getD σ.clock⟩ (readIndex σ)), (fun m => m.id = u.id : ListMeta → Bool) x :=
    ⟨_, hmem, by simp⟩
  have hsome := List.find?_isSome.mpr this
  obtain ⟨b, hb⟩ := Option.isSome_iff_exists.mp hsome
  exact ⟨b, by simpa [readIndex, writeIndex] using hb⟩

theorem persistUpdated_clock_some (u : ListSnapshot) (σ : St) (t : Nat)
    (hu : u.updatedAt = some t) : (persistUpdated u σ).clock = σ.clock := by
  obtain ⟨b, hb⟩ := find?_writeListDoc u σ
  simp only [persistUpdated, upsertMeta_eq, writeIndex, safeMeta, hu, hb]
  rw [writeListDoc_eq]
  simp [hu]

/-- C10: item mutations with an unknown item id are silent no-ops on the
items: when the resolved current list has no item with id x, updateItem,
toggleItem and deleteItem all return (no failure is signalled — the functions
are total), the returned and persisted snapshot keeps the prior items
element for element with only updatedAt advanced to the call time, and when
offline the corresponding pending op is still enqueued. -/
theorem c10_unknown_item_noop (σ : St) (snap : ListSnapshot) (x : String)
    (patch : ItemPatch) (online : Bool)
    (hmig : migrationNeeded σ = false)
    (hres : resolveSnap σ = some snap)
    (hx : ∀ it ∈ snap.items, it.id ≠ x) :
    ((updateItem x patch online σ).1 = { snap with updatedAt := some σ.clock } ∧
      readListDoc snap.id (updateItem x patch online σ).2 =
        some (updateItem x patch online σ).1 ∧
      (online = false → loadOps (updateItem x patch online σ).2 =
        loadOps σ ++ [PendingOp.update x patch (σ.clock + 1) (some snap.id)])) ∧
    ((toggleItem x online σ).1 = { snap with updatedAt := some σ.clock } ∧
      readListDoc snap.id (toggleItem x online σ).2 = some (toggleItem x online σ).1 ∧
      (online = false → loadOps (toggleItem x online σ).2 =
        loadOps σ ++ [PendingOp.toggle x (σ.clock + 1) (some snap.id)])) ∧
    ((deleteItem x online σ).1 = { snap with updatedAt := some σ.clock } ∧
      readListDoc snap.id (deleteItem x online σ).2 = some (deleteItem x online σ).1 ∧
      (online = false → loadOps (deleteItem x online σ).2 =
        loadOps σ ++ [PendingOp.delete x (σ.clock + 1) (some snap.id)])) := by
  have hmap := items_map_noop (fun it => applyPatch it patch) x snap.items hx
  have htog := items_map_noop (fun it => { it with done := !it.done }) x snap.items hx
  have hfil := items_filter_noop x snap.items hx
  refine ⟨?_, ?_, ?_⟩
  · simp only [updateItem, loadSnapshot, migrateIfNeeded_skip σ hmig, hres, nowIso, hmap]
    refine ⟨?_, ?_, ?_⟩
    · first | trivial | rfl
    · cases online <;>
        simp [readListDoc, persistUpdated_docs, lookupDoc_setDoc_self, queue, saveOps,
          loadOps, now]
    · intro hon
      subst hon
      simp [queue, saveOps, loadOps, persistUpdated_pending, persistUpdated_clock_some, now]
  · simp only [toggleItem, loadSnapshot, migrateIfNeeded_skip σ hmig, hres, nowIso, htog]
    refine ⟨?_, ?_, ?_⟩
    · first | trivial | rfl
    · cases online <;>
        simp [readListDoc, persistUpdated_docs, lookupDoc_setDoc_self, queue, saveOps,
          loadOps, now]
    · intro hon
      subst hon
      simp [queue, saveOps, loadOps, persistUpdated_pending, persistUpdated_clock_some, now]
  · simp only [deleteItem, loadSnapshot, migrateIfNeeded_skip σ hmig, hres, nowIso, hfil]
    refine ⟨?_, ?_, ?_⟩
    · first | trivial | rfl
    · cases online <;>
        simp [readListDoc, persistUpdated_docs, lookupDoc_setDoc_self, queue, saveOps,
          loadOps, now]
    · intro hon
      subst hon
      simp [queue, saveOps, loadOps, persistUpdated_pending, persistUpdated_clock_some, now]

/-- Snapshot and state for the C10 witness: one list with a single item "i1". -/
def c10Snap : ListSnapshot :=
  ⟨"a", some "A", 0, some 2, [⟨"i1", "Eggs", false, none, none, none, none⟩]⟩

def c10St : St :=
  { legacy := Slot.ok c10Snap, pending := Slot.absent,
    index := Slot.ok [⟨"a", "A", 0, 2⟩], currentId := some "a",
    docs := [("a", Slot.ok c10Snap)], clock := 5, ids := 0 }

theorem c10_witness :
    (updateItem "zzz" {} false c10St).1 = { c10Snap with updatedAt := some 5 } ∧
      loadOps (updateItem "zzz" {} false c10St).2 =
        loadOps c10St ++ [PendingOp.update "zzz" {} 6 (some "a")] :=
  ⟨(c10_unknown_item_noop c10St c10Snap "zzz" {} false (by decide) rfl (by decide)).1.1,
   (c10_unknown_item_noop c10St c10Snap "zzz" {} false (by decide) rfl (by decide)).1.2.2 rfl⟩

/- ----------------- C9 ----------------- -/

theorem currentIdIfTruthy_some (σ : St) (cid : String)
    (h : currentIdIfTruthy σ = some cid) : σ.currentId = some cid ∧ cid ≠ "" := by
  unfold currentIdIfTruthy at h
  cases hc : σ.currentId with
  | none => rw [hc] at h; exact absurd h (by simp)
  | some s =>
    rw [hc] at h
    by_cases hs : s = ""
    · simp [hs] at h
    · simp only [hs, if_false, reduceIte] at h
      simp at h
      subst h
      exact ⟨rfl, hs⟩

theorem currentIdIfTruthy_congr (σ' σ : St) (h : σ'.currentId = σ.currentId) :
    currentIdIfTruthy σ' = currentIdIfTruthy σ := by
  simp only [currentIdIfTruthy, h]

theorem persistUpdated_index_ok (u : ListSnapshot) (σ : St) :
    ∃ l, (persistUpdated u σ).index = Slot.ok l :=
  ⟨_, rfl⟩

theorem resolveSnap_eq_of_truthy (σ : St) (cid : String)
    (h : currentIdIfTruthy σ = some cid) :
    resolveSnap σ =
      (match readListDoc cid σ with
        | some doc => some doc
        | none => match σ.legacy with | Slot.ok d => some d | _ => none) := by
  unfold resolveSnap
  rw [h]

theorem migrateBody_docs (σ : St) :
    ∃ nd, (migrateBody σ).docs = setDoc ("id-" ++ toString σ.ids) (Slot.ok nd) σ.docs ∧
      nd.id = "id-" ++ toString σ.ids := by
  simp only [migrateBody, writeListDoc, writeIndex, setCurrentListId, nowIso, uuid,
    getCurrentListId]
  cases σ.legacy with
  | ok d => cases d.updatedAt <;> split <;> exact ⟨_, rfl, rfl⟩
  | absent => split <;> exact ⟨_, rfl, rfl⟩
  | corrupt => split <;> exact ⟨_, rfl, rfl⟩

/-- Per-list documents are stored under their own id field; every write of the
store maintains this, and migration preserves it. -/
def GoodDocs (σ : St) : Prop :=
  ∀ k d, lookupDoc k σ.docs = some (Slot.ok d) → d.id = k

theorem goodDocs_migrate (σ : St) (h : GoodDocs σ) : GoodDocs (migrateIfNeeded σ) := by
  unfold migrateIfNeeded
  by_cases hn : migrationNeeded σ = true
  · rw [if_pos hn]
    obtain ⟨nd, hdocs, hid⟩ := migrateBody_docs σ
    intro k d hl
    rw [hdocs] at hl
    by_cases hk : k = "id-" ++ toString σ.ids
    · subst hk
      rw [lookupDoc_setDoc_self] at hl
      injection hl with h2
      injection h2 with h3
      rw [← h3]
      exact hid
    · rw [lookupDoc_setDoc_ne _ _ _ _ hk] at hl
      exact h k d hl
  · rw [if_neg hn]
    exact h

/-- Migrated state refuting C9 as stated: the document stored under key "a"
carries id "b", so the save lands under "b" while the reload still reads "a". -/
def c9Bad : St :=
  { legacy := Slot.absent, pending := Slot.absent,
    index := Slot.ok [⟨"a", "A", 0, 0⟩], currentId := some "a",
    docs := [("a", Slot.ok ⟨"b", some "B", 0, some 0, []⟩)], clock := 7, ids := 0 }

def c9BadDoc : ListSnapshot := ⟨"b", some "B", 0, some 0, []⟩

/-- C9 is false as stated over every storage state: on a state whose per-list
document is stored under a key different from its id field, loadSnapshot
returns S, yet saveSnapshot(S) followed by loadSnapshot returns the stale
document unchanged — its updatedAt is not the time of the save. -/
theorem c9_counterexample :
    (loadSnapshot c9Bad).1 = some c9BadDoc ∧
    (loadSnapshot (saveSnapshot c9BadDoc (loadSnapshot c9Bad).2)).1 = some c9BadDoc ∧
    c9BadDoc.updatedAt ≠ some ((loadSnapshot c9Bad).2.clock) := by
  refine ⟨rfl, rfl, by decide⟩

/-- C9 amended: on storage states whose per-list documents are stored under
their own id field (every write of the store maintains this), if loadSnapshot
returns S, then saveSnapshot(S) followed by loadSnapshot returns exactly S
with only updatedAt replaced by the time of the save. -/
theorem c9_round_trip_amended (σ : St) (S : ListSnapshot)
    (hdocs : GoodDocs σ)
    (hS : (loadSnapshot σ).1 = some S) :
    (loadSnapshot (saveSnapshot S (loadSnapshot σ).2)).1 =
      some { S with updatedAt := some ((loadSnapshot σ).2.clock) } := by
  have hneed : migrationNeeded (migrateIfNeeded σ) = false := migrationNeeded_migrateIfNeeded σ
  have hdocs1 : GoodDocs (migrateIfNeeded σ) := goodDocs_migrate σ hdocs
  have hres : resolveSnap (migrateIfNeeded σ) = some S := hS
  have hσ2 : (loadSnapshot σ).2 = migrateIfNeeded σ := rfl
  rw [hσ2]
  set σ₁ := migrateIfNeeded σ with hs1
  -- characterize the save
  have hsave : saveSnapshot S σ₁ =
      persistUpdated { S with updatedAt := some σ₁.clock }
        { σ₁ with clock := σ₁.clock + 1 } := by
    simp only [saveSnapshot, migrateIfNeeded_skip σ₁ hneed, nowIso]
  set updated : ListSnapshot := { S with updatedAt := some σ₁.clock } with hupd
  set σt : St := { σ₁ with clock := σ₁.clock + 1 } with hst
  -- resolution case analysis on σ₁
  cases hcur : currentIdIfTruthy σ₁ with
  | none =>
    -- impossible: a migrated state with untruthy selection has no legacy,
    -- so resolution yields none
    exfalso
    have htr : truthyStr σ₁.currentId = false := by
      unfold currentIdIfTruthy at hcur
      unfold truthyStr
      cases hc : σ₁.currentId with
      | none => rfl
      | some s =>
        rw [hc] at hcur
        by_cases hs : s = ""
        · simp [hs]
        · simp [hs] at hcur
    have hguard : ((decide (σ₁.index ≠ Slot.absent) && truthyStr σ₁.currentId)
        || decide (σ₁.legacy = Slot.absent)) = true := by
      have h2 := hneed
      unfold migrationNeeded at h2
      cases hg : ((decide (σ₁.index ≠ Slot.absent) && truthyStr σ₁.currentId)
          || decide (σ₁.legacy = Slot.absent)) with
      | true => rfl
      | false => rw [hg] at h2; simp at h2
    rw [htr, Bool.and_false, Bool.false_or, decide_eq_true_eq] at hguard
    unfold resolveSnap at hres
    rw [hcur, hguard] at hres
    simp at hres
  | some cid =>
    obtain ⟨hc1, hcne⟩ := currentIdIfTruthy_some σ₁ cid hcur
    -- post-save projections
    have hcur2 : (saveSnapshot S σ₁).currentId = some cid := by
      rw [hsave, persistUpdated_currentId]
      exact hc1
    have hdocs2 : (saveSnapshot S σ₁).docs = setDoc S.id (Slot.ok updated) σ₁.docs := by
      rw [hsave, persistUpdated_docs]
    have hleg2 : (saveSnapshot S σ₁).legacy = Slot.ok updated := by
      rw [hsave, persistUpdated_legacy]
    obtain ⟨il, hidx2⟩ : ∃ l, (saveSnapshot S σ₁).index = Slot.ok l := by
      rw [hsave]
      exact persistUpdated_index_ok _ _
    have hneed2 : migrationNeeded (saveSnapshot S σ₁) = false := by
      simp [migrationNeeded, hidx2, hcur2, truthyStr, hcne]
    have hct2 : currentIdIfTruthy (saveSnapshot S σ₁) = some cid := by
      unfold currentIdIfTruthy
      rw [hcur2]
      simp [hcne]
    -- reload
    simp only [loadSnapshot, migrateIfNeeded_skip _ hneed2]
    -- resolution of the reload
    rw [resolveSnap_eq_of_truthy _ cid hct2]
    -- the stored doc under cid after the save
    rw [resolveSnap_eq_of_truthy σ₁ cid hcur] at hres
    cases hdoc : readListDoc cid σ₁ with
    | some doc =>
      rw [hdoc] at hres
      simp only [Option.some.injEq] at hres
      rw [hres] at hdoc
      -- the doc's key equals its id
      have hkey : S.id = cid := by
        apply hdocs1 cid S
        unfold readListDoc at hdoc
        cases hl : lookupDoc cid σ₁.docs with
        | none => rw [hl] at hdoc; simp at hdoc
        | some sl =>
          rw [hl] at hdoc
          cases sl with
          | ok d =>
            simp at hdoc
            rw [hdoc]
          | absent => simp at hdoc
          | corrupt => simp at hdoc
      have : readListDoc cid (saveSnapshot S σ₁) = some updated := by
        unfold readListDoc
        rw [hdocs2, ← hkey, lookupDoc_setDoc_self]
      rw [this]
    | none =>
      rw [hdoc] at hres
      -- resolution fell through to the legacy slot
      cases hleg1 : σ₁.legacy with
      | ok L =>
        by_cases hkey : S.id = cid
        · have : readListDoc cid (saveSnapshot S σ₁) = some updated := by
            unfold readListDoc
            rw [hdocs2, ← hkey, lookupDoc_setDoc_self]
          rw [this]
        · have hrd2 : readListDoc cid (saveSnapshot S σ₁) = none := by
            unfold readListDoc at hdoc ⊢
            rw [hdocs2, lookupDoc_setDoc_ne _ _ _ _ (fun he => hkey he.symm)]
            exact hdoc
          rw [hrd2, hleg2]
      | absent => rw [hleg1] at hres; simp at hres
      | corrupt => rw [hleg1] at hres; simp at hres

def c9GoodDoc : ListSnapshot := ⟨"a", some "A", 0, some 2, []⟩

/-- Well-keyed one-list state for the C9 witness. -/
def c9GoodSt : St :=
  { legacy := Slot.ok c9GoodDoc, pending := Slot.absent,
    index := Slot.ok [⟨"a", "A", 0, 2⟩], currentId := some "a",
    docs := [("a", Slot.ok c9GoodDoc)], clock := 9, ids := 0 }

theorem c9_witness :
    (loadSnapshot (saveSnapshot c9GoodDoc (loadSnapshot c9GoodSt).2)).1 =
      some { c9GoodDoc with updatedAt := some ((loadSnapshot c9GoodSt).2.clock) } :=
  c9_round_trip_amended c9GoodSt c9GoodDoc
    (by
      intro k d h
      by_cases hk : "a" = k
      · subst hk
        simp [c9GoodSt, lookupDoc] at h
        rw [← h]
        rfl
      · simp [c9GoodSt, lookupDoc, hk] at h)
    rfl

/- ----------------- C1 ----------------- -/

/-- C1 is false as stated over arbitrary operation sequences: (i) after
createAndSelectList "A" followed by selectList of the created id, the
persisted document still carries the creation time while the only index entry
has a bumped updatedAt, so no index entry equals the document on updatedAt;
(ii) after saveSnapshot of a snapshot with id "a" on fresh storage (no
selection) followed by createAndSelectList "B", the re-triggered migration
clobbers the index and the persisted document "a" has no index entry at
all. -/
theorem c1_counterexample :
    ((readListDoc ("id-" ++ toString 0)
        (runOps [Op.createAndSelect "A", Op.select ("id-" ++ toString 0)] emptySt)).map
        ListSnapshot.updatedAt = some (some 0) ∧
      (readIndex (runOps [Op.createAndSelect "A", Op.select ("id-" ++ toString 0)]
        emptySt)).map ListMeta.updatedAt = [1]) ∧
    ((readListDoc "a"
        (runOps [Op.save ⟨"a", some "A", 5, none, []⟩, Op.createAndSelect "B"]
          emptySt)).isSome = true ∧
      (readIndex (runOps [Op.save ⟨"a", some "A", 5, none, []⟩, Op.createAndSelect "B"]
        emptySt)).filter (fun m => m.id = "a") = []) := by
  decide

theorem fallbackName_trim (x : Option String) : jsTrim (fallbackName x) = fallbackName x := by
  cases x with
  | none => decide
  | some s =>
    by_cases h : jsTrim s = ""
    · simp only [fallbackName, h, if_pos]
      decide
    · simp only [fallbackName, h, if_neg, ite_false]
      exact jsTrim_idem s

theorem fallbackName_ne (x : Option String) : fallbackName x ≠ "" := by
  cases x with
  | none => decide
  | some s =>
    by_cases h : jsTrim s = ""
    · simp only [fallbackName, h, ite_true]
      decide
    · simp only [fallbackName, h, ite_false]
      exact h

theorem fallbackName_fix (x : Option String) :
    fallbackName (some (fallbackName x)) = fallbackName x := by
  have h1 := fallbackName_trim x
  have h2 := fallbackName_ne x
  show (if jsTrim (fallbackName x) = "" then "My list" else jsTrim (fallbackName x)) =
    fallbackName x
  rw [h1, if_neg h2]

theorem mem_setDoc_weak (k : String) (v : Slot ListSnapshot)
    (l : List (String × Slot ListSnapshot)) (e : String × Slot ListSnapshot)
    (he : e ∈ setDoc k v l) : e = (k, v) ∨ e ∈ l := by
  induction l with
  | nil => simp only [setDoc, List.mem_singleton] at he; exact Or.inl he
  | cons a rest ih =>
    obtain ⟨k1, v1⟩ := a
    simp only [setDoc] at he
    by_cases h : k1 = k
    · rw [if_pos h] at he
      rcases List.mem_cons.mp he with h1 | h1
      · exact Or.inl h1
      · exact Or.inr (List.mem_cons_of_mem _ h1)
    · rw [if_neg h] at he
      rcases List.mem_cons.mp he with h1 | h1
      · exact Or.inr (h1 ▸ List.mem_cons_self _ _)
      · rcases ih h1 with h2 | h2
        · exact Or.inl h2
        · exact Or.inr (List.mem_cons_of_mem _ h2)

theorem nodup_keys_setDoc (k : String) (v : Slot ListSnapshot)
    (l : List (String × Slot ListSnapshot)) (h : (l.map Prod.fst).Nodup) :
    ((setDoc k v l).map Prod.fst).Nodup := by
  induction l with
  | nil => simp [setDoc]
  | cons a rest ih =>
    obtain ⟨k1, v1⟩ := a
    simp only [List.map_cons, List.nodup_cons] at h
    obtain ⟨hk1, hrest⟩ := h
    simp only [setDoc]
    by_cases hkk : k1 = k
    · rw [if_pos hkk]
      subst hkk
      simp only [List.map_cons, List.nodup_cons]
      exact ⟨hk1, hrest⟩
    · rw [if_neg hkk]
      simp only [List.map_cons, List.nodup_cons]
      refine ⟨?_, ih hrest⟩
      intro hmem
      rcases List.mem_map.mp hmem with ⟨e, hemem, heq⟩
      rcases mem_setDoc_weak k v rest e hemem with h1 | h1
      · rw [h1] at heq; exact hkk heq.symm
      · exact hk1 (heq ▸ List.mem_map_of_mem Prod.fst h1)

theorem mem_setDoc_nodup (k : String) (v : Slot ListSnapshot)
    (l : List (String × Slot ListSnapshot)) (e : String × Slot ListSnapshot)
    (hk : (l.map Prod.fst).Nodup) (he : e ∈ setDoc k v l) :
    e = (k, v) ∨ (e ∈ l ∧ e.1 ≠ k) := by
  induction l with
  | nil => simp only [setDoc, List.mem_singleton] at he; exact Or.inl he
  | cons a rest ih =>
    obtain ⟨k1, v1⟩ := a
    simp only [List.map_cons, List.nodup_cons] at hk
    obtain ⟨hk1, hrest⟩ := hk
    simp only [setDoc] at he
    by_cases h : k1 = k
    · rw [if_pos h] at he
      subst h
      rcases List.mem_cons.mp he with h1 | h1
      · exact Or.inl h1
      · refine Or.inr ⟨List.mem_cons_of_mem _ h1, ?_⟩
        intro hek
        exact hk1 (hek ▸ List.mem_map_of_mem Prod.fst h1)
    · rw [if_neg h] at he
      rcases List.mem_cons.mp he with h1 | h1
      · refine Or.inr ⟨h1 ▸ List.mem_cons_self _ _, ?_⟩
        rw [h1]
        exact h
      · rcases ih hrest h1 with h2 | h2
        · exact Or.inl h2
        · exact Or.inr ⟨List.mem_cons_of_mem _ h2.1, h2.2⟩

theorem pair_eq_of_nodup_keys (l : List (String × Slot ListSnapshot)) (k : String)
    (a b : Slot ListSnapshot) (hk : (l.map Prod.fst).Nodup)
    (ha : (k, a) ∈ l) (hb : (k, b) ∈ l) : a = b := by
  induction l with
  | nil => simp at ha
  | cons x rest ih =>
    simp only [List.map_cons, List.nodup_cons] at hk
    obtain ⟨hx, hrest⟩ := hk
    rcases List.mem_cons.mp ha with h1 | h1 <;> rcases List.mem_cons.mp hb with h2 | h2
    · exact congrArg Prod.snd (h1.trans h2.symm)
    · have hk1 : x.1 = k := by rw [← h1]
      exact absurd (List.mem_map_of_mem Prod.fst h2) (hk1 ▸ hx)
    · have hk1 : x.1 = k := by rw [← h2]
      exact absurd (List.mem_map_of_mem Prod.fst h1) (hk1 ▸ hx)
    · exact ih hrest h1 h2

theorem lookupDoc_mem (k : String) (l : List (String × Slot ListSnapshot))
    (sl : Slot ListSnapshot) (h : lookupDoc k l = some sl) : (k, sl) ∈ l := by
  induction l with
  | nil => simp [lookupDoc] at h
  | cons a rest ih =>
    obtain ⟨k1, v1⟩ := a
    simp only [lookupDoc] at h
    by_cases hk : k1 = k
    · rw [if_pos hk] at h
      injection h with h1
      subst hk
      rw [h1]
      exact List.mem_cons_self _ _
    · rw [if_neg hk] at h
      exact List.mem_cons_of_mem _ (ih h)

theorem mem_removeDoc (id : String) (l : List (String × Slot ListSnapshot))
    (e : String × Slot ListSnapshot) (he : e ∈ removeDoc id l) : e ∈ l ∧ e.1 ≠ id := by
  unfold removeDoc at he
  have := List.mem_filter.mp he
  refine ⟨this.1, ?_⟩
  simpa using this.2

theorem nodup_keys_removeDoc (id : String) (l : List (String × Slot ListSnapshot))
    (h : (l.map Prod.fst).Nodup) : ((removeDoc id l).map Prod.fst).Nodup :=
  ((List.filter_sublist l).map Prod.fst).nodup h

theorem mem_upsertList (m meta : ListMeta) (l : List ListMeta)
    (hm : m ∈ upsertList meta l) : m = meta ∨ m ∈ l := by
  unfold upsertList at hm
  cases h : upsertAt meta l with
  | none =>
    rw [h] at hm
    exact List.mem_cons.mp hm
  | some l2 =>
    rw [h] at hm
    obtain ⟨l₁, x, l₂, hl, hx, hl₁, hl2⟩ := upsertAt_some_shape meta l l2 h
    rw [hl2] at hm
    rcases List.mem_append.mp hm with h1 | h1
    · exact Or.inr (hl ▸ List.mem_append_left _ h1)
    · rcases List.mem_cons.mp h1 with h2 | h2
      · exact Or.inl h2
      · exact Or.inr (hl ▸ List.mem_append_right _ (List.mem_cons_of_mem _ h2))

theorem mem_upsertList_of_ne (m meta : ListMeta) (l : List ListMeta)
    (hm : m ∈ l) (hne : m.id ≠ meta.id) : m ∈ upsertList meta l := by
  unfold upsertList
  cases h : upsertAt meta l with
  | none => exact List.mem_cons_of_mem _ hm
  | some l2 =>
    obtain ⟨l₁, x, l₂, hl, hx, hl₁, hl2⟩ := upsertAt_some_shape meta l l2 h
    rw [hl2]
    rw [hl] at hm
    rcases List.mem_append.mp hm with h1 | h1
    · exact List.mem_append_left _ h1
    · rcases List.mem_cons.mp h1 with h2 | h2
      · exact absurd (h2 ▸ hx) hne
      · exact List.mem_append_right _ (List.mem_cons_of_mem _ h2)

theorem ids_upsertList_nodup (meta : ListMeta) (l : List ListMeta)
    (h : (l.map (fun m => m.id)).Nodup) :
    ((upsertList meta l).map (fun m => m.id)).Nodup := by
  unfold upsertList
  cases hu : upsertAt meta l with
  | none =>
    simp only [List.map_cons, List.nodup_cons]
    refine ⟨?_, h⟩
    intro hmem
    rcases List.mem_map.mp hmem with ⟨y, hy, hid⟩
    exact upsertAt_none meta l hu y hy hid
  | some l2 =>
    obtain ⟨l₁, x, l₂, hl, hx, hl₁, hl2⟩ := upsertAt_some_shape meta l l2 hu
    rw [hl2]
    rw [hl] at h
    simpa only [List.map_append, List.map_cons, hx] using h

theorem mem_upsertMap (m meta : ListMeta) (l : List ListMeta)
    (hm : m ∈ upsertMap meta l) : m = meta ∨ (m ∈ l ∧ m.id ≠ meta.id) := by
  unfold upsertMap at hm
  split at hm
  · rcases List.mem_map.mp hm with ⟨y, hy, hym⟩
    by_cases hid : y.id = meta.id
    · rw [if_pos hid] at hym
      exact Or.inl hym.symm
    · rw [if_neg hid] at hym
      exact Or.inr ⟨hym ▸ hy, hym ▸ hid⟩
  · rcases List.mem_append.mp hm with h1 | h1
    · rename_i hany
      refine Or.inr ⟨h1, ?_⟩
      intro hid
      rw [Bool.not_eq_true, List.any_eq_false] at hany
      exact hany m h1 (by simpa using hid)
    · exact Or.inl (List.mem_singleton.mp h1)

theorem mem_upsertMap_of_ne (m meta : ListMeta) (l : List ListMeta)
    (hm : m ∈ l) (hne : m.id ≠ meta.id) : m ∈ upsertMap meta l := by
  unfold upsertMap
  split
  · have : (if m.id = meta.id then meta else m) = m := if_neg hne
    exact this ▸ List.mem_map_of_mem _ hm
  · exact List.mem_append_left _ hm

theorem mem_upsertMap_self (meta : ListMeta) (l : List ListMeta) :
    meta ∈ upsertMap meta l := by
  unfold upsertMap
  split
  · rename_i hany
    rcases List.any_eq_true.mp hany with ⟨y, hy, hid⟩
    have hmem := List.mem_map_of_mem (fun m => if m.id = meta.id then meta else m) hy
    have hyid : y.id = meta.id := by simpa using hid
    simpa [hyid] using hmem
  · exact List.mem_append_right _ (List.mem_singleton.mpr rfl)

theorem ids_upsertMap (meta : ListMeta) (l : List ListMeta) :
    (l.map (fun m => if m.id = meta.id then meta else m)).map (fun m => m.id) =
      l.map (fun m => m.id) := by
  induction l with
  | nil => rfl
  | cons a rest ih =>
    simp only [List.map_cons, ih]
    by_cases ha : a.id = meta.id
    · rw [if_pos ha, ha]
    · rw [if_neg ha]

theorem ids_upsertMap_nodup (meta : ListMeta) (l : List ListMeta)
    (h : (l.map (fun m => m.id)).Nodup) :
    ((upsertMap meta l).map (fun m => m.id)).Nodup := by
  unfold upsertMap
  split
  · rw [ids_upsertMap]
    exact h
  · rename_i hany
    rw [Bool.not_eq_true, List.any_eq_false] at hany
    simp only [List.map_append, List.map_cons, List.map_nil]
    rw [List.nodup_append]
    refine ⟨h, List.nodup_singleton _, ?_⟩
    intro a hmem hmem2
    rcases List.mem_map.mp hmem with ⟨y, hy, hid⟩
    rcases List.mem_singleton.mp hmem2 with rfl
    exact hany y hy (by simpa using hid)

theorem ids_sort_nodup (l : List ListMeta) (h : (l.map (fun m => m.id)).Nodup) :
    ((sortByUpdatedDesc l).map (fun m => m.id)).Nodup :=
  (((sortByUpdatedDesc_perm l).map (fun m => m.id)).nodup_iff).mpr h

theorem filter_eq_singleton_of_nodup (l : List ListMeta) (m : ListMeta)
    (h : (l.map (fun m => m.id)).Nodup) (hm : m ∈ l) :
    l.filter (fun x => x.id = m.id) = [m] := by
  induction l with
  | nil => simp at hm
  | cons a rest ih =>
    simp only [List.map_cons, List.nodup_cons] at h
    obtain ⟨ha, hrest⟩ := h
    rcases List.mem_cons.mp hm with h1 | h1
    · subst h1
      rw [List.filter_cons_of_pos (by simp)]
      have : rest.filter (fun x => x.id = m.id) = [] := by
        rw [List.filter_eq_nil]
        intro x hx
        simp only [decide_eq_true_eq]
        intro hxid
        exact ha (hxid ▸ List.mem_map_of_mem (fun m : ListMeta => m.id) hx)
      rw [this]
    · have hane : ¬(a.id = m.id) := by
        intro heq
        exact ha (heq ▸ List.mem_map_of_mem (fun m : ListMeta => m.id) h1)
      rw [List.filter_cons_of_neg (by simpa using hane)]
      exact ih hrest h1

theorem find?_eq_of_nodup (l : List ListMeta) (m : ListMeta) (k : String)
    (h : (l.map (fun m => m.id)).Nodup) (hm : m ∈ l) (hk : m.id = k) :
    l.find? (fun x => x.id = k) = some m := by
  induction l with
  | nil => simp at hm
  | cons a rest ih =>
    simp only [List.map_cons, List.nodup_cons] at h
    obtain ⟨ha, hrest⟩ := h
    by_cases hak : a.id = k
    · rw [List.find?_cons_of_pos _ (by simpa using hak)]
      rcases List.mem_cons.mp hm with h1 | h1
      · rw [h1]
      · exact absurd ((hak.trans hk.symm) ▸ List.mem_map_of_mem (fun m : ListMeta => m.id) h1)
          (by intro hc; exact ha (by simpa [hak, ← hk] using hc))
    · rw [List.find?_cons_of_neg _ (by simpa using hak)]
      rcases List.mem_cons.mp hm with h1 | h1
      · exact absurd (h1 ▸ hk) hak
      · exact ih hrest h1

theorem eq_of_mem_nodup_ids (l : List ListMeta) (a b : ListMeta)
    (h : (l.map (fun m => m.id)).Nodup) (ha : a ∈ l) (hb : b ∈ l)
    (hid : a.id = b.id) : a = b := by
  induction l with
  | nil => simp at ha
  | cons x rest ih =>
    simp only [List.map_cons, List.nodup_cons] at h
    obtain ⟨hx, hrest⟩ := h
    rcases List.mem_cons.mp ha with h1 | h1 <;> rcases List.mem_cons.mp hb with h2 | h2
    · rw [h1, h2]
    · subst h1
      exact absurd (hid ▸ List.mem_map_of_mem (fun m : ListMeta => m.id) h2) hx
    · subst h2
      exact absurd (hid ▸ List.mem_map_of_mem (fun m : ListMeta => m.id) h1) (by
        intro hc
        exact hx (by simpa [hid] using hc))
    · exact ih hrest h1 h2

/-- One index entry denormalizes one document: same id, same createdAt, and
the name is the document's name after the trimmed-or-"My list"
normalization applied by every index write. -/
def MetaMatches (d : ListSnapshot) (m : ListMeta) : Prop :=
  m.id = d.id ∧ m.createdAt = d.createdAt ∧ m.name = fallbackName d.name

/-- One stored per-list document entry is well formed with respect to the
index: it is stored under its own (non-empty) id and some index entry
denormalizes it. -/
def DocOk (idx : List ListMeta) (e : String × Slot ListSnapshot) : Prop :=
  ∀ d, e.2 = Slot.ok d → e.1 = d.id ∧ d.id ≠ "" ∧ ∃ m ∈ idx, MetaMatches d m

/-- Storage invariant: the state is migrated, document keys and index ids are
duplicate free, every stored document is denormalized by an index entry, and
ids kept in the index, the legacy slot and the selection are non-empty. -/
def Inv (σ : St) : Prop :=
  migrationNeeded σ = false ∧
  (σ.docs.map Prod.fst).Nodup ∧
  ((readIndex σ).map (fun m => m.id)).Nodup ∧
  (∀ e ∈ σ.docs, DocOk (readIndex σ) e) ∧
  (∀ m ∈ readIndex σ, m.id ≠ "") ∧
  (∀ d, σ.legacy = Slot.ok d → d.id ≠ "") ∧
  σ.currentId ≠ some ""

/-- Precondition under which an operation is run in the amended claim: only
saveSnapshot is restricted, to calls made while a list is (truthily) selected
and with a snapshot carrying a non-empty id — the way the UI invokes it,
after a successful loadSnapshot. -/
def safeOp (σ : St) : Op → Bool
  | .save snap => truthyStr σ.currentId && !(snap.id = "" : Bool)
  | _ => true

/-- Every operation of the sequence satisfies its precondition in the state
in which it runs. -/
def safeRun : List Op → St → Bool
  | [], _ => true
  | op :: rest, σ => safeOp σ op && safeRun rest (Op.step σ op)

theorem truthy_elim (o : Option String) (h : truthyStr o = true) :
    ∃ s, o = some s ∧ s ≠ "" := by
  cases o with
  | none => simp [truthyStr] at h
  | some s =>
    refine ⟨s, rfl, ?_⟩
    simpa [truthyStr] using h

theorem migrationNeeded_false_of (σ : St) (h1 : σ.index ≠ Slot.absent)
    (h2 : truthyStr σ.currentId = true) : migrationNeeded σ = false := by
  simp [migrationNeeded, h1, h2]

theorem readIndex_congr (σ F : St) (h : F.index = σ.index) :
    readIndex F = readIndex σ := by
  unfold readIndex
  rw [h]

theorem inv_congr (σ F : St) (h1 : F.legacy = σ.legacy) (h2 : F.index = σ.index)
    (h3 : F.currentId = σ.currentId) (h4 : F.docs = σ.docs) (hinv : Inv σ) : Inv F := by
  obtain ⟨hm, hkeys, hnd, hdocs, hids, hleg, hcur⟩ := hinv
  have hri : readIndex F = readIndex σ := readIndex_congr σ F h2
  refine ⟨?_, ?_, ?_, ?_, ?_, ?_, ?_⟩
  · unfold migrationNeeded at hm ⊢
    rw [h1, h2, h3]
    exact hm
  · rw [h4]; exact hkeys
  · rw [hri]; exact hnd
  · rw [h4, hri]; exact hdocs
  · rw [hri]; exact hids
  · rw [h1]; exact hleg
  · rw [h3]; exact hcur

theorem inv_empty : Inv emptySt := by
  refine ⟨rfl, ?_, ?_, ?_, ?_, ?_, ?_⟩
  · simp [emptySt]
  · simp [emptySt, readIndex]
  · intro e he
    simp [emptySt] at he
  · intro m hm
    simp [emptySt, readIndex] at hm
  · intro d hd
    simp [emptySt] at hd
  · simp [emptySt]

theorem writeListDoc_readIndex (u : ListSnapshot) (σ : St) :
    readIndex (writeListDoc u σ) =
      sortByUpdatedDesc (upsertList
        ⟨u.id, fallbackName u.name, u.createdAt, u.updatedAt.getD σ.clock⟩
        (readIndex σ)) := by
  rw [writeListDoc_eq]
  rfl

theorem writeListDoc_docs (u : ListSnapshot) (σ : St) :
    (writeListDoc u σ).docs = setDoc u.id (Slot.ok u) σ.docs := by
  rw [writeListDoc_eq]

theorem writeListDoc_currentId (u : ListSnapshot) (σ : St) :
    (writeListDoc u σ).currentId = σ.currentId := by
  rw [writeListDoc_eq]

/-- Invariant preservation for the writeListDoc-then-upsertMeta write path
(persistUpdated, createAndSelectList, createNewList): the document snap is
stored under its id and the final meta meta2 denormalizes it. -/
theorem inv_mk (σ F : St) (hinv : Inv σ) (snap : ListSnapshot)
    (meta1 meta2 : ListMeta) (cid : String)
    (hdocsF : F.docs = setDoc snap.id (Slot.ok snap) σ.docs)
    (hidxF : readIndex F =
      upsertMap meta2 (sortByUpdatedDesc (upsertList meta1 (readIndex σ))))
    (hFidx : F.index ≠ Slot.absent)
    (hlegF : F.legacy = Slot.ok snap)
    (hcurF : F.currentId = some cid)
    (hcid : cid ≠ "")
    (hsid : snap.id ≠ "")
    (hm1 : meta1.id = snap.id)
    (hm2id : meta2.id = snap.id)
    (hm2c : meta2.createdAt = snap.createdAt)
    (hm2n : meta2.name = fallbackName snap.name) :
    Inv F := by
  obtain ⟨hm, hkeys, hnd, hdocs, hids, hleg, hcur⟩ := hinv
  have hnd1 : ((sortByUpdatedDesc (upsertList meta1 (readIndex σ))).map
      (fun m => m.id)).Nodup :=
    ids_sort_nodup _ (ids_upsertList_nodup meta1 _ hnd)
  refine ⟨?_, ?_, ?_, ?_, ?_, ?_, ?_⟩
  · refine migrationNeeded_false_of F hFidx ?_
    rw [hcurF]
    simpa [truthyStr] using hcid
  · rw [hdocsF]
    exact nodup_keys_setDoc _ _ _ hkeys
  · rw [hidxF]
    exact ids_upsertMap_nodup meta2 _ hnd1
  · intro e he
    rw [hdocsF] at he
    rcases mem_setDoc_nodup _ _ _ _ hkeys he with h1 | ⟨h1, h2⟩
    · intro d hd
      rw [h1] at hd
      have hd2 : Slot.ok snap = Slot.ok d := hd
      injection hd2 with hd3
      subst hd3
      refine ⟨by rw [h1], hsid, meta2, ?_, hm2id, hm2c, hm2n⟩
      rw [hidxF]
      exact mem_upsertMap_self meta2 _
    · intro d hd
      obtain ⟨he1, he2, m, hmmem, hmid, hmc, hmn⟩ := hdocs e h1 d hd
      have hmne : m.id ≠ snap.id := by
        rw [hmid, ← he1]
        exact h2
      refine ⟨he1, he2, m, ?_, hmid, hmc, hmn⟩
      rw [hidxF]
      refine mem_upsertMap_of_ne m meta2 _ ?_ (by rw [hm2id]; exact hmne)
      exact ((sortByUpdatedDesc_perm _).mem_iff).mpr
        (mem_upsertList_of_ne m meta1 _ hmmem (by rw [hm1]; exact hmne))
  · intro m hmem
    rw [hidxF] at hmem
    rcases mem_upsertMap m meta2 _ hmem with h1 | ⟨h1, _⟩
    · rw [h1, hm2id]; exact hsid
    · have h2 := ((sortByUpdatedDesc_perm _).mem_iff).mp h1
      rcases mem_upsertList m meta1 _ h2 with h3 | h3
      · rw [h3, hm1]; exact hsid
      · exact hids m h3
  · intro d hd
    rw [hlegF] at hd
    injection hd with h1
    rw [← h1]
    exact hsid
  · rw [hcurF]
    intro h
    injection h with h1
    exact hcid h1

/-- Invariant preservation for the selectList write path: the selected
document doc already sits in storage under its id, the documents are
untouched, and the index gets one upsert of a meta denormalizing doc. -/
theorem inv_select_mk (σ F : St) (hinv : Inv σ) (doc : ListSnapshot)
    (meta2 : ListMeta)
    (hdocmem : (doc.id, Slot.ok doc) ∈ σ.docs)
    (hdocsF : F.docs = σ.docs)
    (hidxF : readIndex F = upsertMap meta2 (readIndex σ))
    (hFidx : F.index ≠ Slot.absent)
    (hlegF : F.legacy = Slot.ok doc)
    (hcurF : F.currentId = some doc.id)
    (hdid : doc.id ≠ "")
    (hm2id : meta2.id = doc.id)
    (hm2c : meta2.createdAt = doc.createdAt)
    (hm2n : meta2.name = fallbackName doc.name) :
    Inv F := by
  obtain ⟨hm, hkeys, hnd, hdocs, hids, hleg, hcur⟩ := hinv
  refine ⟨?_, ?_, ?_, ?_, ?_, ?_, ?_⟩
  · refine migrationNeeded_false_of F hFidx ?_
    rw [hcurF]
    simpa [truthyStr] using hdid
  · rw [hdocsF]; exact hkeys
  · rw [hidxF]
    exact ids_upsertMap_nodup meta2 _ hnd
  · intro e he
    rw [hdocsF] at he
    intro d hd
    obtain ⟨he1, he2, m, hmmem, hmid, hmc, hmn⟩ := hdocs e he d hd
    by_cases hdd : d.id = doc.id
    · -- e is the selected document entry (keys are duplicate free)
      have hed : e = (doc.id, Slot.ok d) := by
        obtain ⟨e1, e2⟩ := e
        simp only at he1 hd
        rw [hd, he1, hdd]
      have hdedoc : Slot.ok d = Slot.ok doc := by
        refine pair_eq_of_nodup_keys σ.docs doc.id _ _ hkeys ?_ hdocmem
        rw [← hed]
        exact he
      injection hdedoc with hde2
      subst hde2
      refine ⟨he1, he2, meta2, ?_, hm2id, hm2c, hm2n⟩
      rw [hidxF]
      exact mem_upsertMap_self meta2 _
    · refine ⟨he1, he2, m, ?_, hmid, hmc, hmn⟩
      rw [hidxF]
      refine mem_upsertMap_of_ne m meta2 _ hmmem ?_
      rw [hmid, hm2id]
      exact hdd
  · intro m hmem
    rw [hidxF] at hmem
    rcases mem_upsertMap m meta2 _ hmem with h1 | ⟨h1, _⟩
    · rw [h1, hm2id]; exact hdid
    · exact hids m h1
  · intro d hd
    rw [hlegF] at hd
    injection hd with h1
    rw [← h1]
    exact hdid
  · rw [hcurF]
    intro h
    injection h with h1
    exact hdid h1

theorem persistUpdated_eq (u : ListSnapshot) (σ : St) (p : ListMeta)
    (hp : (readIndex (writeListDoc u σ)).find? (fun m => m.id = u.id) = some p) :
    persistUpdated u σ =
      { writeListDoc u σ with
        legacy := Slot.ok u,
        index := Slot.ok (upsertMap
          ⟨u.id,
            fallbackName (match u.name with | some s => some s | none => some p.name),
            p.createdAt, u.updatedAt.getD (writeListDoc u σ).clock⟩
          (readIndex (writeListDoc u σ))),
        clock := match u.updatedAt with
          | some _ => (writeListDoc u σ).clock
          | none => (writeListDoc u σ).clock + 1 } := by
  simp only [persistUpdated, safeMeta, upsertMeta_eq, writeIndex, nowIso, hp]
  cases hu : u.updatedAt <;> simp only [hu, Option.getD] <;> rfl

theorem inv_persistUpdated (u : ListSnapshot) (σ : St) (hinv : Inv σ)
    (hid : u.id ≠ "") (cid : String) (hcid : σ.currentId = some cid)
    (hcne : cid ≠ "") : Inv (persistUpdated u σ) := by
  have hnd := hinv.2.2.1
  have hnd1 : ((sortByUpdatedDesc (upsertList
      ⟨u.id, fallbackName u.name, u.createdAt, u.updatedAt.getD σ.clock⟩
      (readIndex σ))).map (fun m => m.id)).Nodup :=
    ids_sort_nodup _ (ids_upsertList_nodup _ _ hnd)
  have hmem1 : (⟨u.id, fallbackName u.name, u.createdAt, u.updatedAt.getD σ.clock⟩ :
      ListMeta) ∈ sortByUpdatedDesc (upsertList
        ⟨u.id, fallbackName u.name, u.createdAt, u.updatedAt.getD σ.clock⟩
        (readIndex σ)) :=
    ((sortByUpdatedDesc_perm _).mem_iff).mpr (mem_upsertList_self _ _)
  have hp : (readIndex (writeListDoc u σ)).find? (fun m => m.id = u.id) =
      some ⟨u.id, fallbackName u.name, u.createdAt, u.updatedAt.getD σ.clock⟩ := by
    rw [writeListDoc_readIndex]
    exact find?_eq_of_nodup _ _ _ hnd1 hmem1 rfl
  refine inv_mk σ (persistUpdated u σ) hinv u
    ⟨u.id, fallbackName u.name, u.createdAt, u.updatedAt.getD σ.clock⟩
    ⟨u.id,
      fallbackName (match u.name with
        | some s => some s
        | none => some (fallbackName u.name)),
      u.createdAt, u.updatedAt.getD (writeListDoc u σ).clock⟩
    cid (persistUpdated_docs u σ) ?_ ?_ (persistUpdated_legacy u σ) ?_ hcne hid
    rfl rfl rfl ?_
  · rw [persistUpdated_eq u σ _ hp]
    show upsertMap _ (readIndex (writeListDoc u σ)) = _
    rw [writeListDoc_readIndex]
  · obtain ⟨l, hl⟩ := persistUpdated_index_ok u σ
    rw [hl]
    simp
  · rw [persistUpdated_currentId]
    exact hcid
  · cases hn : u.name with
    | none => exact fallbackName_fix none
    | some s => rfl

theorem createAndSelectList_eq (name : String) (σ : St)
    (hmig : migrationNeeded σ = false) :
    createAndSelectList name σ =
      (⟨"id-" ++ toString σ.ids, some (fallbackName (some name)), σ.clock,
        some σ.clock, []⟩,
       { legacy := Slot.ok ⟨"id-" ++ toString σ.ids, some (fallbackName (some name)),
           σ.clock, some σ.clock, []⟩,
         pending := σ.pending,
         index := Slot.ok (upsertMap
           ⟨"id-" ++ toString σ.ids, fallbackName (some (fallbackName (some name))),
             σ.clock, σ.clock⟩
           (sortByUpdatedDesc (upsertList
             ⟨"id-" ++ toString σ.ids, fallbackName (some (fallbackName (some name))),
               σ.clock, σ.clock⟩ (readIndex σ)))),
         currentId := some ("id-" ++ toString σ.ids),
         docs := setDoc ("id-" ++ toString σ.ids)
           (Slot.ok ⟨"id-" ++ toString σ.ids, some (fallbackName (some name)),
             σ.clock, some σ.clock, []⟩) σ.docs,
         clock := σ.clock + 1,
         ids := σ.ids + 1 }) := by
  simp only [createAndSelectList, migrateIfNeeded_skip σ hmig, uuid, nowIso,
    writeListDoc_eq, toMeta, safeMeta, upsertMeta_eq, writeIndex, setCurrentListId,
    readIndex, getCurrentListId, ite_self, Option.getD_some]

theorem inv_createAndSelectList (name : String) (σ : St) (hinv : Inv σ) :
    Inv (createAndSelectList name σ).2 := by
  have heq := createAndSelectList_eq name σ hinv.1
  refine inv_mk σ (createAndSelectList name σ).2 hinv
    ⟨"id-" ++ toString σ.ids, some (fallbackName (some name)), σ.clock, some σ.clock, []⟩
    ⟨"id-" ++ toString σ.ids, fallbackName (some (fallbackName (some name))),
      σ.clock, σ.clock⟩
    ⟨"id-" ++ toString σ.ids, fallbackName (some (fallbackName (some name))),
      σ.clock, σ.clock⟩
    ("id-" ++ toString σ.ids) ?_ ?_ ?_ ?_ ?_ (uuid_ne_empty σ.ids) (uuid_ne_empty σ.ids)
    rfl rfl rfl rfl
  · rw [heq]
  · rw [heq]
    rfl
  · rw [heq]
    simp
  · rw [heq]
  · rw [heq]

theorem inv_createNewList (σ : St) (hinv : Inv σ) : Inv (createNewList σ).2 := by
  have heq := createNewList_eq σ hinv.1
  have hfb : fallbackName (some "My list") = "My list" := rfl
  refine inv_mk σ (createNewList σ).2 hinv
    ⟨"id-" ++ toString σ.ids, some "My list", σ.clock, some σ.clock, []⟩
    ⟨"id-" ++ toString σ.ids, "My list", σ.clock, σ.clock⟩
    ⟨"id-" ++ toString σ.ids, "My list", σ.clock, σ.clock⟩
    ("id-" ++ toString σ.ids) ?_ ?_ ?_ ?_ ?_ (uuid_ne_empty σ.ids) (uuid_ne_empty σ.ids)
    rfl rfl rfl hfb.symm
  · rw [heq]
  · rw [heq]
    rfl
  · rw [heq]
    simp
  · rw [heq]
  · rw [heq]

theorem createNewList_currentId (σ : St) (hmig : migrationNeeded σ = false) :
    (createNewList σ).2.currentId = some ("id-" ++ toString σ.ids) := by
  rw [createNewList_eq σ hmig]

theorem createNewList_fst_id (σ : St) (hmig : migrationNeeded σ = false) :
    (createNewList σ).1.id = "id-" ++ toString σ.ids := by
  rw [createNewList_eq σ hmig]

theorem readListDoc_some (id : String) (σ : St) (d : ListSnapshot)
    (h : readListDoc id σ = some d) : lookupDoc id σ.docs = some (Slot.ok d) := by
  unfold readListDoc at h
  cases hl : lookupDoc id σ.docs with
  | none => rw [hl] at h; exact absurd h (by simp)
  | some sl =>
    rw [hl] at h
    cases sl with
    | ok x =>
      injection h with h1
      rw [h1]
    | absent => simp at h
    | corrupt => simp at h

theorem selectList_found (id : String) (σ : St) (doc : ListSnapshot) (m0 : ListMeta)
    (hmig : migrationNeeded σ = false) (hdoc : readListDoc id σ = some doc)
    (hm0 : (readIndex σ).find? (fun m => m.id = id) = some m0) :
    (selectList id σ).2 =
      { σ with
        currentId := some id,
        legacy := Slot.ok doc,
        index := Slot.ok (upsertMap
          ⟨id,
            fallbackName (match doc.name with | some s => some s | none => some m0.name),
            m0.createdAt, σ.clock⟩ (readIndex σ)),
        clock := σ.clock + 1 } := by
  simp only [selectList, migrateIfNeeded_skip σ hmig, hdoc, setCurrentListId, nowIso,
    safeMeta, upsertMeta_eq, writeIndex]
  simp only [readIndex] at hm0 ⊢
  rw [hm0]
  rfl

theorem inv_selectList (id : String) (σ : St) (hinv : Inv σ) :
    Inv (selectList id σ).2 := by
  cases hdoc : readListDoc id σ with
  | none =>
    have hskip : (selectList id σ).2 = σ := by
      simp only [selectList, migrateIfNeeded_skip σ hinv.1, hdoc]
    rw [hskip]
    exact hinv
  | some doc =>
    have hld := readListDoc_some id σ doc hdoc
    have hmem := lookupDoc_mem _ _ _ hld
    obtain ⟨he1, he2, m0, hm0mem, hm0id, hm0c, hm0n⟩ :=
      hinv.2.2.2.1 _ hmem doc rfl
    have hid2 : id = doc.id := he1
    have hfind : (readIndex σ).find? (fun m => m.id = id) = some m0 :=
      find?_eq_of_nodup _ _ _ hinv.2.2.1 hm0mem (hm0id.trans hid2.symm)
    rw [selectList_found id σ doc m0 hinv.1 hdoc hfind]
    refine inv_select_mk σ _ hinv doc
      ⟨id,
        fallbackName (match doc.name with | some s => some s | none => some m0.name),
        m0.createdAt, σ.clock⟩
      (hid2 ▸ hmem) rfl rfl (by simp) rfl (by rw [hid2]) he2 hid2 hm0c ?_
    cases hn : doc.name with
    | some s => rfl
    | none =>
      rw [hn] at hm0n
      show fallbackName (some m0.name) = fallbackName none
      rw [hm0n]
      exact fallbackName_fix none

theorem resolve_inv_cases (σ : St) (hinv : Inv σ) :
    resolveSnap σ = none ∨
      ∃ cid s, σ.currentId = some cid ∧ cid ≠ "" ∧ resolveSnap σ = some s ∧
        s.id ≠ "" := by
  cases hc : currentIdIfTruthy σ with
  | none =>
    have huntruthy : truthyStr σ.currentId = false := by
      unfold currentIdIfTruthy at hc
      cases ho : σ.currentId with
      | none => simp [truthyStr]
      | some s =>
        rw [ho] at hc
        by_cases hs : s = ""
        · simp [truthyStr, hs]
        · simp [hs] at hc
    have hlegabs : σ.legacy = Slot.absent := by
      have hm := hinv.1
      unfold migrationNeeded at hm
      rw [huntruthy] at hm
      simpa using hm
    left
    simp only [resolveSnap, hc, hlegabs]
  | some cid =>
    obtain ⟨hcs, hcne⟩ := currentIdIfTruthy_some σ cid hc
    cases hdoc : readListDoc cid σ with
    | some doc =>
      have hld := readListDoc_some cid σ doc hdoc
      obtain ⟨he1, he2, _⟩ := hinv.2.2.2.1 _ (lookupDoc_mem _ _ _ hld) doc rfl
      right
      exact ⟨cid, doc, hcs, hcne,
        by rw [resolveSnap_eq_of_truthy σ cid hc, hdoc], he2⟩
    | none =>
      cases hleg : σ.legacy with
      | ok d =>
        right
        exact ⟨cid, d, hcs, hcne,
          by rw [resolveSnap_eq_of_truthy σ cid hc, hdoc, hleg],
          hinv.2.2.2.2.2.1 d hleg⟩
      | absent =>
        left
        rw [resolveSnap_eq_of_truthy σ cid hc, hdoc, hleg]
      | corrupt =>
        left
        rw [resolveSnap_eq_of_truthy σ cid hc, hdoc, hleg]

/-- Shared resolve-or-create-then-persist-then-maybe-enqueue shape of the
item mutations (api.ts lines 198-279): items' computes the new items from
the resolved snapshot, mkOp the pending op enqueued when offline. -/
def mutateCore (items' : ListSnapshot → List Item)
    (mkOp : ListSnapshot → Nat → PendingOp) (online : Bool) (σ : St) :
    ListSnapshot × St :=
  let σ := migrateIfNeeded σ
  let (s?, σ) := loadSnapshot σ
  let (snap, σ) := match s? with | some s => (s, σ) | none => createNewList σ
  let (t, σ) := nowIso σ
  let updated : ListSnapshot := { snap with items := items' snap, updatedAt := some t }
  let σ := persistUpdated updated σ
  let σ :=
    if online then σ
    else
      let (ts, σ2) := now σ
      queue (mkOp snap ts) σ2
  (updated, σ)

theorem replaceItems_eq_core (items : List Item) (σ : St) :
    replaceItems items σ =
      mutateCore (fun _ => items) (fun _ _ => PendingOp.toggle "" 0 none) true σ := rfl

theorem addItem_eq_core (x : Item) (online : Bool) (σ : St) :
    addItem x online σ =
      mutateCore (fun s => s.items ++ [x])
        (fun snap ts => PendingOp.add x ts (some snap.id)) online σ := rfl

theorem updateItem_eq_core (id : String) (patch : ItemPatch) (online : Bool) (σ : St) :
    updateItem id patch online σ =
      mutateCore
        (fun snap => snap.items.map (fun it => if it.id = id then applyPatch it patch else it))
        (fun snap ts => PendingOp.update id patch ts (some snap.id)) online σ := rfl

theorem toggleItem_eq_core (id : String) (online : Bool) (σ : St) :
    toggleItem id online σ =
      mutateCore
        (fun snap => snap.items.map (fun it => if it.id = id then { it with done := !it.done } else it))
        (fun snap ts => PendingOp.toggle id ts (some snap.id)) online σ := rfl

theorem deleteItem_eq_core (id : String) (online : Bool) (σ : St) :
    deleteItem id online σ =
      mutateCore (fun snap => snap.items.filter (fun it => it.id ≠ id))
        (fun snap ts => PendingOp.delete id ts (some snap.id)) online σ := rfl

theorem inv_mutateCore (f : ListSnapshot → List Item)
    (mkOp : ListSnapshot → Nat → PendingOp) (online : Bool) (σ : St) (hinv : Inv σ) :
    Inv (mutateCore f mkOp online σ).2 := by
  have hm := hinv.1
  rcases resolve_inv_cases σ hinv with hr | ⟨cid, s, hcid, hcne, hr, hsid⟩
  · simp only [mutateCore, loadSnapshot, migrateIfNeeded_skip σ hm, hr, nowIso]
    have hinvN := inv_createNewList σ hinv
    have hP : Inv (persistUpdated
        { (createNewList σ).1 with
          items := f (createNewList σ).1,
          updatedAt := some (createNewList σ).2.clock }
        { (createNewList σ).2 with clock := (createNewList σ).2.clock + 1 }) := by
      refine inv_persistUpdated _ _
        (inv_congr (createNewList σ).2 _ rfl rfl rfl rfl hinvN) ?_
        ("id-" ++ toString σ.ids) ?_ (uuid_ne_empty σ.ids)
      · show (createNewList σ).1.id ≠ ""
        rw [createNewList_fst_id σ hm]
        exact uuid_ne_empty σ.ids
      · show (createNewList σ).2.currentId = some ("id-" ++ toString σ.ids)
        exact createNewList_currentId σ hm
    split
    · exact hP
    · exact inv_congr _ _ rfl rfl rfl rfl hP
  · simp only [mutateCore, loadSnapshot, migrateIfNeeded_skip σ hm, hr, nowIso]
    have hP : Inv (persistUpdated { s with items := f s, updatedAt := some σ.clock }
        { σ with clock := σ.clock + 1 }) := by
      refine inv_persistUpdated _ _ (inv_congr σ _ rfl rfl rfl rfl hinv) hsid cid hcid hcne
    split
    · exact hP
    · exact inv_congr _ _ rfl rfl rfl rfl hP

theorem renameCurrentList_found (nn : String) (σ : St) (cid : String)
    (snap : ListSnapshot) (hmig : migrationNeeded σ = false)
    (hc : currentIdIfTruthy σ = some cid) (hdoc : readListDoc cid σ = some snap)
    (hsid : snap.id = cid) :
    (renameCurrentList nn σ).2 =
      persistUpdated
        { snap with name := some (fallbackName (some nn)), updatedAt := some σ.clock }
        { σ with clock := σ.clock + 1 } := by
  simp only [renameCurrentList, migrateIfNeeded_skip σ hmig, hc, hdoc, nowIso,
    persistUpdated, hsid]

theorem inv_renameCurrentList (nn : String) (σ : St) (hinv : Inv σ) :
    Inv (renameCurrentList nn σ).2 := by
  have hm := hinv.1
  cases hc : currentIdIfTruthy σ with
  | none =>
    have hskip : (renameCurrentList nn σ).2 = σ := by
      simp only [renameCurrentList, migrateIfNeeded_skip σ hm, hc]
    rw [hskip]
    exact hinv
  | some cid =>
    cases hdoc : readListDoc cid σ with
    | none =>
      have hskip : (renameCurrentList nn σ).2 = σ := by
        simp only [renameCurrentList, migrateIfNeeded_skip σ hm, hc, hdoc]
      rw [hskip]
      exact hinv
    | some snap =>
      have hld := readListDoc_some cid σ snap hdoc
      obtain ⟨he1, he2, _⟩ := hinv.2.2.2.1 _ (lookupDoc_mem _ _ _ hld) snap rfl
      have hsid : snap.id = cid := he1.symm
      obtain ⟨hcs, hcne⟩ := currentIdIfTruthy_some σ cid hc
      rw [renameCurrentList_found nn σ cid snap hm hc hdoc hsid]
      refine inv_persistUpdated _ _ (inv_congr σ _ rfl rfl rfl rfl hinv) ?_ cid hcs hcne
      show snap.id ≠ ""
      exact he2

theorem renameUnique_found (nn : String) (σ : St) (cid : String)
    (snap : ListSnapshot) (hmig : migrationNeeded σ = false)
    (hc : currentIdIfTruthy σ = some cid) (hdoc : readListDoc cid σ = some snap)
    (hsid : snap.id = cid) (hcand : ¬jsTrim nn = "")
    (hdup : ((readIndex σ).any
      (fun m => m.id ≠ cid && normName m.name = normName (jsTrim nn))) = false) :
    (renameCurrentListUnique nn σ).2 =
      persistUpdated
        { snap with
          name := some (fallbackName (some (jsTrim nn))),
          updatedAt := some σ.clock }
        { σ with clock := σ.clock + 1 } := by
  simp only [renameCurrentListUnique, migrateIfNeeded_skip σ hmig, hc, hdoc, nowIso,
    persistUpdated, hsid]
  rw [if_neg hcand, if_neg (by rw [hdup]; exact Bool.false_ne_true)]

theorem inv_renameUnique (nn : String) (σ : St) (hinv : Inv σ) :
    Inv (renameCurrentListUnique nn σ).2 := by
  have hm := hinv.1
  cases hc : currentIdIfTruthy σ with
  | none =>
    have hskip : (renameCurrentListUnique nn σ).2 = σ := by
      simp only [renameCurrentListUnique, migrateIfNeeded_skip σ hm, hc]
    rw [hskip]
    exact hinv
  | some cid =>
    cases hdoc : readListDoc cid σ with
    | none =>
      have hskip : (renameCurrentListUnique nn σ).2 = σ := by
        simp only [renameCurrentListUnique, migrateIfNeeded_skip σ hm, hc, hdoc]
      rw [hskip]
      exact hinv
    | some snap =>
      have hld := readListDoc_some cid σ snap hdoc
      obtain ⟨he1, he2, _⟩ := hinv.2.2.2.1 _ (lookupDoc_mem _ _ _ hld) snap rfl
      have hsid : snap.id = cid := he1.symm
      obtain ⟨hcs, hcne⟩ := currentIdIfTruthy_some σ cid hc
      by_cases hcand : jsTrim nn = ""
      · have hskip : (renameCurrentListUnique nn σ).2 = σ := by
          simp only [renameCurrentListUnique, migrateIfNeeded_skip σ hm, hc, hdoc]
          rw [if_pos hcand]
        rw [hskip]
        exact hinv
      · by_cases hdup : ((readIndex σ).any
            (fun m => m.id ≠ cid && normName m.name = normName (jsTrim nn))) = true
        · have hskip : (renameCurrentListUnique nn σ).2 = σ := by
            simp only [renameCurrentListUnique, migrateIfNeeded_skip σ hm, hc, hdoc]
            rw [if_neg hcand, if_pos hdup]
          rw [hskip]
          exact hinv
        · rw [renameUnique_found nn σ cid snap hm hc hdoc hsid hcand
            (Bool.not_eq_true _ ▸ hdup)]
          refine inv_persistUpdated _ _ (inv_congr σ _ rfl rfl rfl rfl hinv) ?_
            cid hcs hcne
          show snap.id ≠ ""
          exact he2

theorem saveSnapshot_eq (snap : ListSnapshot) (σ : St)
    (hmig : migrationNeeded σ = false) :
    saveSnapshot snap σ =
      persistUpdated { snap with updatedAt := some σ.clock }
        { σ with clock := σ.clock + 1 } := by
  simp only [saveSnapshot, migrateIfNeeded_skip σ hmig, nowIso]

theorem inv_saveSnapshot (snap : ListSnapshot) (σ : St) (hinv : Inv σ)
    (hid : snap.id ≠ "") (htr : truthyStr σ.currentId = true) :
    Inv (saveSnapshot snap σ) := by
  obtain ⟨cid, hcs, hcne⟩ := truthy_elim _ htr
  rw [saveSnapshot_eq snap σ hinv.1]
  refine inv_persistUpdated _ _ (inv_congr σ _ rfl rfl rfl rfl hinv) ?_ cid hcs hcne
  show snap.id ≠ ""
  exact hid

theorem inv_deleteListById (id : String) (σ : St) (hinv : Inv σ) :
    Inv (deleteListById id σ) := by
  obtain ⟨hm, hkeys, hnd, hdocs, hids, hleg, hcur⟩ := hinv
  have hlegtr : σ.legacy = Slot.absent ∨ truthyStr σ.currentId = true := by
    unfold migrationNeeded at hm
    cases htr : truthyStr σ.currentId with
    | true => exact Or.inr rfl
    | false =>
      rw [htr] at hm
      exact Or.inl (by simpa using hm)
  have hkeys2 : ((removeDoc id σ.docs).map Prod.fst).Nodup :=
    nodup_keys_removeDoc id σ.docs hkeys
  have hnd2 : (((readIndex σ).filter (fun m => m.id ≠ id)).map
      (fun m => m.id)).Nodup :=
    ((List.filter_sublist _).map (fun m : ListMeta => m.id)).nodup hnd
  have hids2 : ∀ m ∈ (readIndex σ).filter (fun m => m.id ≠ id), m.id ≠ "" :=
    fun m hmem => hids m (List.mem_filter.mp hmem).1
  have hdocs2 : ∀ e ∈ removeDoc id σ.docs,
      DocOk ((readIndex σ).filter (fun m => m.id ≠ id)) e := by
    intro e he d hd
    obtain ⟨hemem, hene⟩ := mem_removeDoc id σ.docs e he
    obtain ⟨he1, he2, m, hmmem, hmid, hmc, hmn⟩ := hdocs e hemem d hd
    refine ⟨he1, he2, m, ?_, hmid, hmc, hmn⟩
    refine List.mem_filter.mpr ⟨hmmem, ?_⟩
    simp only [decide_eq_true_eq]
    rw [hmid, ← he1]
    exact hene
  rw [deleteListById_skip σ id hm]
  unfold deleteBodyNoMig
  simp only [writeIndex, getCurrentListId, clearCurrentListId, setCurrentListId]
  split
  · -- the deleted list was selected: repair
    split
    · -- index empty after removal: clear everything
      rename_i hnil
      refine ⟨?_, hkeys2, ?_, ?_, ?_, ?_, ?_⟩
      · simp [migrationNeeded]
      · show (((readIndex σ).filter (fun m => m.id ≠ id)).map (fun m => m.id)).Nodup
        exact hnd2
      · intro e he d hd
        obtain ⟨he1, he2, m, hmmem, hmm⟩ := hdocs2 e he d hd
        exact ⟨he1, he2, m, hmmem, hmm⟩
      · intro m hmem
        exact hids2 m hmem
      · intro d hd
        simp at hd
      · simp
    · -- select the first remaining entry
      rename_i m rest hcons
      have hmmem : m ∈ (readIndex σ).filter (fun m => m.id ≠ id) := by
        rw [hcons]
        exact List.mem_cons_self _ _
      have hmne : m.id ≠ "" := hids2 m hmmem
      split
      · -- its document exists: mirror it into the legacy slot
        rename_i doc hdoc2
        have hld : lookupDoc m.id (removeDoc id σ.docs) = some (Slot.ok doc) := by
          have := readListDoc_some m.id _ doc hdoc2
          exact this
        have hmem2 := lookupDoc_mem _ _ _ hld
        have hdocok := hdocs2 _ hmem2 doc rfl
        refine ⟨?_, hkeys2, hnd2, hdocs2, hids2, ?_, ?_⟩
        · refine migrationNeeded_false_of _ (by simp) ?_
          simpa [truthyStr] using hmne
        · intro d hd
          injection hd with h1
          rw [← h1]
          exact hdocok.2.1
        · intro h
          injection h with h1
          exact hmne h1
      · refine ⟨?_, hkeys2, hnd2, hdocs2, hids2, ?_, ?_⟩
        · refine migrationNeeded_false_of _ (by simp) ?_
          simpa [truthyStr] using hmne
        · intro d hd
          exact hleg d hd
        · intro h
          injection h with h1
          exact hmne h1
  · -- the deleted list was not selected: selection untouched
    refine ⟨?_, hkeys2, hnd2, hdocs2, hids2, ?_, ?_⟩
    · rcases hlegtr with habs | htr
      · simp [migrationNeeded, habs]
      · exact migrationNeeded_false_of _ (by simp) htr
    · intro d hd
      exact hleg d hd
    · exact hcur

theorem inv_loadSnapshot (σ : St) (hinv : Inv σ) : Inv (loadSnapshot σ).2 := by
  show Inv (migrateIfNeeded σ)
  rw [migrateIfNeeded_skip σ hinv.1]
  exact hinv

theorem inv_getAllLists (σ : St) (hinv : Inv σ) : Inv (getAllLists σ).2 := by
  show Inv (migrateIfNeeded σ)
  rw [migrateIfNeeded_skip σ hinv.1]
  exact hinv

theorem inv_flushPendingOps (sendOk : Nat → PendingOp → Bool) (σ : St)
    (hinv : Inv σ) : Inv (flushPendingOps sendOk σ).1 := by
  simp only [flushPendingOps]
  by_cases h : loadOps σ = []
  · rw [if_pos h]
    exact hinv
  · rw [if_neg h]
    cases hfr : flushRun sendOk 0 (loadOps σ) with
    | mk b tr =>
      cases b
      · rw [if_neg (by simp)]
        exact hinv
      · rw [if_pos rfl]
        exact inv_congr σ _ rfl rfl rfl rfl hinv

theorem inv_resetStorage (σ : St) : Inv (resetStorage σ) := by
  refine ⟨?_, ?_, ?_, ?_, ?_, ?_, ?_⟩
  · simp [migrationNeeded, resetStorage]
  · simp [resetStorage]
  · simp [resetStorage, readIndex]
  · intro e he
    simp [resetStorage] at he
  · intro m hmem
    simp [resetStorage, readIndex] at hmem
  · intro d hd
    simp [resetStorage] at hd
  · simp [resetStorage]

theorem inv_createUnique (name : String) (σ : St) (hinv : Inv σ) :
    Inv (createAndSelectListUnique name σ).2 := by
  simp only [createAndSelectListUnique, migrateIfNeeded_skip σ hinv.1]
  by_cases h1 : jsTrim name = ""
  · rw [if_pos h1]
    exact hinv
  · rw [if_neg h1]
    by_cases h2 : nameExists (jsTrim name) σ = true
    · rw [if_pos h2]
      exact hinv
    · rw [if_neg h2]
      exact inv_createAndSelectList _ σ hinv

theorem inv_openByName (name : String) (σ : St) (hinv : Inv σ) :
    Inv (openExistingByName name σ).2 := by
  simp only [openExistingByName, migrateIfNeeded_skip σ hinv.1]
  split
  · exact hinv
  · rename_i meta _
    exact inv_selectList meta.id σ hinv

theorem inv_step (σ : St) (op : Op) (hinv : Inv σ) (hsafe : safeOp σ op = true) :
    Inv (Op.step σ op) := by
  cases op with
  | createAndSelect name => exact inv_createAndSelectList name σ hinv
  | select id => exact inv_selectList id σ hinv
  | renameCurrent name => exact inv_renameCurrentList name σ hinv
  | deleteList id => exact inv_deleteListById id σ hinv
  | createNew => exact inv_createNewList σ hinv
  | replaceAll items =>
    show Inv (replaceItems items σ).2
    rw [replaceItems_eq_core]
    exact inv_mutateCore _ _ _ σ hinv
  | add it online =>
    show Inv (addItem it online σ).2
    rw [addItem_eq_core]
    exact inv_mutateCore _ _ _ σ hinv
  | update id patch online =>
    show Inv (updateItem id patch online σ).2
    rw [updateItem_eq_core]
    exact inv_mutateCore _ _ _ σ hinv
  | toggle id online =>
    show Inv (toggleItem id online σ).2
    rw [toggleItem_eq_core]
    exact inv_mutateCore _ _ _ σ hinv
  | removeIt id online =>
    show Inv (deleteItem id online σ).2
    rw [deleteItem_eq_core]
    exact inv_mutateCore _ _ _ σ hinv
  | save snap =>
    simp only [safeOp, Bool.and_eq_true] at hsafe
    refine inv_saveSnapshot snap σ hinv ?_ hsafe.1
    simpa using hsafe.2
  | load => exact inv_loadSnapshot σ hinv
  | createUnique name => exact inv_createUnique name σ hinv
  | renameUnique name => exact inv_renameUnique name σ hinv
  | openByName name => exact inv_openByName name σ hinv
  | flush sendOk => exact inv_flushPendingOps sendOk σ hinv
  | reset => exact inv_resetStorage σ

theorem inv_runOps (ops : List Op) (σ : St) (hinv : Inv σ)
    (hsafe : safeRun ops σ = true) : Inv (runOps ops σ) := by
  induction ops generalizing σ with
  | nil => exact hinv
  | cons op rest ih =>
    simp only [safeRun, Bool.and_eq_true] at hsafe
    exact ih (Op.step σ op) (inv_step σ op hinv hsafe.1) hsafe.2

theorem safeRun_prefix (pre suf : List Op) (σ : St)
    (h : safeRun (pre ++ suf) σ = true) : safeRun pre σ = true := by
  induction pre generalizing σ with
  | nil => rfl
  | cons op rest ih =>
    simp only [List.cons_append, safeRun, Bool.and_eq_true] at h ⊢
    exact ⟨h.1, ih (Op.step σ op) h.2⟩

/-- C1 amended: on invariant-satisfying storage states (the fresh state is
one, and the invariant is preserved), for every sequence of public mutating
operations in which saveSnapshot is only invoked while a list is truthily
selected and with a snapshot carrying a non-empty id, immediately after each
operation (each prefix of the sequence), every list id with a persisted
per-list document has exactly one index entry, and that entry agrees with
the document on id and createdAt and carries the document's
trimmed-or-default name.  (As stated the claim is false: selectList bumps
only the index entry's updatedAt, so updatedAt equality fails, the index
stores the normalized rather than the raw name, and an unguarded
saveSnapshot on an unselected state followed by any operation re-triggers
migration, which clobbers the index and strands documents with no index
entry at all.) -/
theorem c1_index_doc_consistency_amended (σ : St) (ops pre : List Op)
    (hinv : Inv σ) (hsafe : safeRun ops σ = true) (hpre : pre <+: ops) :
    ∀ k d, lookupDoc k (runOps pre σ).docs = some (Slot.ok d) →
      ∃ m, (readIndex (runOps pre σ)).filter (fun m2 => m2.id = d.id) = [m] ∧
        m.id = d.id ∧ m.createdAt = d.createdAt ∧ m.name = fallbackName d.name := by
  obtain ⟨suf, hps⟩ := hpre
  subst hps
  have hsafe2 : safeRun pre σ = true := safeRun_prefix pre suf σ hsafe
  obtain ⟨hm, hkeys, hnd, hdocs, hids, hleg, hcur⟩ := inv_runOps pre σ hinv hsafe2
  intro k d hk
  obtain ⟨he1, he2, m, hmmem, hmid, hmc, hmn⟩ :=
    hdocs _ (lookupDoc_mem _ _ _ hk) d rfl
  refine ⟨m, ?_, hmid, hmc, hmn⟩
  have hfil := filter_eq_singleton_of_nodup _ m hnd hmmem
  rw [hmid] at hfil
  exact hfil

theorem c1_witness :
    Inv emptySt ∧ safeRun [Op.createAndSelect "A"] emptySt = true ∧
      ([Op.createAndSelect "A"] <+: [Op.createAndSelect "A"]) ∧
      (∀ k d,
        lookupDoc k (runOps [Op.createAndSelect "A"] emptySt).docs =
          some (Slot.ok d) →
        ∃ m, (readIndex (runOps [Op.createAndSelect "A"] emptySt)).filter
            (fun m2 => m2.id = d.id) = [m] ∧
          m.id = d.id ∧ m.createdAt = d.createdAt ∧ m.name = fallbackName d.name) :=
  ⟨inv_empty, rfl, List.prefix_refl _,
   c1_index_doc_consistency_amended emptySt [Op.createAndSelect "A"]
     [Op.createAndSelect "A"] inv_empty rfl (List.prefix_refl _)⟩

end ListStore
